import Mathlib

/-!
Verification development for the inticlaude sync engine.

The definitions in this file are a shallow embedding, translated from the
TypeScript source of the repository: the fingerprinting module
(`hashEntity` / `stableSortKeys` with SHA-256 over the canonical JSON
serialization), the ledger repository (`findRecord`, `upsertRecord`,
`markSynced`, `markFailed`, `createRun`, `completeRun`), the change
detector (`detectChanges`), the sync orchestrator (`runSync` in
`src/sync/index.ts`), the Owl adapter's `pushSessionNote` control flow,
and the HTTP trigger routes' status decisions.

JavaScript values are modelled by `JsonVal` (with `undefined` distinct
from `null`), machine the strings by Lean `String`, timestamps by a `Nat`
clock threaded through the state, and the SQLite tables by lists of rows.
-/

namespace Inti



set_option maxRecDepth 40000



/-- A JavaScript value as far as `JSON.stringify` and the record payloads
are concerned.  Object fields are kept in insertion order. -/
inductive JsonVal where
  | null
  | undef
  | bool (b : Bool)
  | num (n : Int)
  | str (s : String)
  | arr (xs : List JsonVal)
  | obj (fields : List (String × JsonVal))

/-- Fields of a JS object, in insertion order. -/
abbrev JFields := List (String × JsonVal)

/-- Lower-case hex digit. -/
def hexDigit (n : Nat) : Char :=
  if n < 10 then Char.ofNat (48 + n) else Char.ofNat (87 + n)

/-- Escape of a single character inside a JSON string literal, as
`JSON.stringify` produces it. -/
def escChar (c : Char) : String :=
  if c = '"' then "\\\""
  else if c = '\\' then "\\\\"
  else if c.toNat = 8 then "\\b"
  else if c.toNat = 12 then "\\f"
  else if c = '\n' then "\\n"
  else if c = '\r' then "\\r"
  else if c = '\t' then "\\t"
  else if c.toNat < 32 then
    "\\u00" ++ String.mk [hexDigit (c.toNat / 16), hexDigit (c.toNat % 16)]
  else String.singleton c

/-- A JSON string literal with its quotes. -/
def jsonQuote (s : String) : String :=
  "\"" ++ String.join (s.data.map escChar) ++ "\""

mutual

/-- `JSON.stringify` of a value: `none` for `undefined` (which is dropped
inside objects and rendered `null` inside arrays). -/
def serializeVal : JsonVal → Option String
  | .undef => none
  | .null => some "null"
  | .bool b => some (if b then "true" else "false")
  | .num n => some (toString n)
  | .str s => some (jsonQuote s)
  | .arr xs => some ("[" ++ String.intercalate "," (serializeArr xs) ++ "]")
  | .obj fs => some ("\x7b" ++ String.intercalate "," (serializeObj fs) ++ "\x7d")

/-- Array elements: `undefined` serializes as `null`. -/
def serializeArr : List JsonVal → List String
  | [] => []
  | v :: vs => ((serializeVal v).getD "null") :: serializeArr vs

/-- Object fields: a field whose value is `undefined` is omitted. -/
def serializeObj : List (String × JsonVal) → List String
  | [] => []
  | (k, v) :: fs =>
    match serializeVal v with
    | none => serializeObj fs
    | some sv => (jsonQuote k ++ ":" ++ sv) :: serializeObj fs

end

/-- Truncation to a 32-bit word. -/
def w32 (x : Nat) : Nat := x % 4294967296

/-- Right rotation of a 32-bit word. -/
def rotr (n x : Nat) : Nat := w32 ((x >>> n) ||| (x <<< (32 - n)))

/-- SHA-256 round constants. -/
def shaK : List Nat :=
  [1116352408, 1899447441, 3049323471, 3921009573,
   961987163, 1508970993, 2453635748, 2870763221,
   3624381080, 310598401, 607225278, 1426881987,
   1925078388, 2162078206, 2614888103, 3248222580,
   3835390401, 4022224774, 264347078, 604807628,
   770255983, 1249150122, 1555081692, 1996064986,
   2554220882, 2821834349, 2952996808, 3210313671,
   3336571891, 3584528711, 113926993, 338241895,
   666307205, 773529912, 1294757372, 1396182291,
   1695183700, 1986661051, 2177026350, 2456956037,
   2730485921, 2820302411, 3259730800, 3345764771,
   3516065817, 3600352804, 4094571909, 275423344,
   430227734, 506948616, 659060556, 883997877,
   958139571, 1322822218, 1537002063, 1747873779,
   1955562222, 2024104815, 2227730452, 2361852424,
   2428436474, 2756734187, 3204031479, 3329325298]

/-- SHA-256 initial hash state. -/
def shaH0 : List Nat :=
  [1779033703, 3144134277, 1013904242, 2773480762,
   1359893119, 2600822924, 528734635, 1541459225]

/-- Big-endian byte decomposition of `n` into `k` bytes. -/
def beBytes (k n : Nat) : List Nat :=
  (List.range k).map (fun i => (n >>> (8 * (k - 1 - i))) % 256)

/-- SHA-256 padding of a byte message. -/
def shaPad (msg : List Nat) : List Nat :=
  let L := msg.length
  let zeros := (120 - (L + 1) % 64) % 64
  msg ++ [0x80] ++ List.replicate zeros 0 ++ beBytes 8 (8 * L)

/-- Group bytes into big-endian 32-bit words. -/
def toWords : List Nat → List Nat
  | a :: b :: c :: d :: rest =>
    ((a <<< 24) ||| (b <<< 16) ||| (c <<< 8) ||| d) :: toWords rest
  | _ => []

/-- Extend a 16-word block by `fuel` schedule words. -/
def extendSched (w : List Nat) : Nat → List Nat
  | 0 => w
  | fuel + 1 =>
    let i := w.length
    let x15 := w.getD (i - 15) 0
    let x2 := w.getD (i - 2) 0
    let s0 := (rotr 7 x15) ^^^ (rotr 18 x15) ^^^ (x15 >>> 3)
    let s1 := (rotr 17 x2) ^^^ (rotr 19 x2) ^^^ (x2 >>> 10)
    extendSched (w ++ [w32 (w.getD (i - 16) 0 + s0 + w.getD (i - 7) 0 + s1)]) fuel

/-- The 64 compression rounds, folding over `(K[i], W[i])` pairs. -/
def shaRounds : List (Nat × Nat) → List Nat → List Nat
  | [], st => st
  | (k, w) :: rest, st =>
    let a := st.getD 0 0
    let b := st.getD 1 0
    let c := st.getD 2 0
    let d := st.getD 3 0
    let e := st.getD 4 0
    let f := st.getD 5 0
    let g := st.getD 6 0
    let h := st.getD 7 0
    let s1 := (rotr 6 e) ^^^ (rotr 11 e) ^^^ (rotr 25 e)
    let ch := (e &&& f) ^^^ ((0xffffffff ^^^ e) &&& g)
    let t1 := w32 (h + s1 + ch + k + w)
    let s0 := (rotr 2 a) ^^^ (rotr 13 a) ^^^ (rotr 22 a)
    let mj := (a &&& b) ^^^ (a &&& c) ^^^ (b &&& c)
    let t2 := w32 (s0 + mj)
    shaRounds rest [w32 (t1 + t2), a, b, c, w32 (d + t1), e, f, g]

/-- Compress one 16-word block into the running hash state. -/
def shaBlock (h : List Nat) (block : List Nat) : List Nat :=
  let w := extendSched block 48
  let st := shaRounds (shaK.zip w) h
  (h.zip st).map (fun p => w32 (p.1 + p.2))

/-- Process `n` blocks of the word stream. -/
def shaBlocks : Nat → List Nat → List Nat → List Nat
  | 0, _, h => h
  | n + 1, ws, h => shaBlocks n (ws.drop 16) (shaBlock h (ws.take 16))

/-- 8-hex-digit rendering of a 32-bit word. -/
def hex32 (n : Nat) : String :=
  String.mk ((List.range 8).map (fun i => hexDigit ((n >>> (4 * (7 - i))) % 16)))

/-- SHA-256 of a byte list, rendered as lower-case hex. -/
def sha256Hex (msg : List Nat) : String :=
  let ws := toWords (shaPad msg)
  let h := shaBlocks (ws.length / 16) ws shaH0
  String.join (h.map hex32)

/-- UTF-8 encoding of one character. -/
def utf8Char (c : Char) : List Nat :=
  let n := c.toNat
  if n < 0x80 then [n]
  else if n < 0x800 then [0xc0 ||| (n >>> 6), 0x80 ||| (n &&& 0x3f)]
  else if n < 0x10000 then
    [0xe0 ||| (n >>> 12), 0x80 ||| ((n >>> 6) &&& 0x3f), 0x80 ||| (n &&& 0x3f)]
  else
    [0xf0 ||| (n >>> 18), 0x80 ||| ((n >>> 12) &&& 0x3f),
     0x80 ||| ((n >>> 6) &&& 0x3f), 0x80 ||| (n &&& 0x3f)]

/-- UTF-8 bytes of a string (what `hash.update(string)` consumes). -/
def utf8Bytes (s : String) : List Nat :=
  (s.data.map utf8Char).flatten

/-- `val ?? null`: both `undefined` and `null` become the explicit null. -/
def orNull : JsonVal → JsonVal
  | .undef => .null
  | .null => .null
  | v => v

/-- The rest-destructuring `const { id, source, sourceId, ...relevant }`:
drops the three metadata keys, keeping the remaining fields in order. -/
def stripMeta (fields : JFields) : JFields :=
  fields.filter (fun kv => ¬(kv.1 = "id" ∨ kv.1 = "source" ∨ kv.1 = "sourceId"))

/-- `stableSortKeys`: iterate `Object.keys(obj).sort()` and rebuild the
object with each value passed through `?? null`. -/
def stableSortKeys (fields : JFields) : JFields :=
  (List.insertionSort (fun a b : String × JsonVal => a.1 ≤ b.1) fields).map
    (fun kv => (kv.1, orNull kv.2))

/-- Key-preserving normalization applied by `stableSortKeys` after
sorting: pair with the value passed through `?? null`. -/
def keyOrNull (kv : String × JsonVal) : String × JsonVal := (kv.1, orNull kv.2)

/-- The canonical JSON string that `hashEntity` feeds to SHA-256. -/
def canonicalJson (fields : JFields) : String :=
  (serializeVal (.obj (stableSortKeys (stripMeta fields)))).getD ""

/-- `hashEntity`: strip `id`/`source`/`sourceId`, sort the remaining keys,
normalize `undefined` to `null`, `JSON.stringify`, SHA-256, hex. -/
def hashEntity (fields : JFields) : String :=
  sha256Hex (utf8Bytes (canonicalJson fields))

/-- The closed entity-type enumeration. -/
inductive EntityType where
  | client
  | appointment
  | sessionNote
  | meetingLink
deriving DecidableEq, Repr

/-- Per-record ledger status. -/
inductive SyncStatus where
  | synced
  | failed
  | pending
deriving DecidableEq, Repr

/-- Terminal/running status of a run record. -/
inductive RunStatus where
  | running
  | completed
  | failed
deriving DecidableEq, Repr

/-- Run mode. -/
inductive Mode where
  | interactive
  | automated
deriving DecidableEq, Repr

/-- Per-item outcome action of a `SyncResult`. -/
inductive Action where
  | created
  | updated
  | skipped
  | failed
deriving DecidableEq, Repr

/-- One row of the `sync_records` table. -/
structure SyncRecord where
  rowId : Nat
  sourceId : String
  entityType : EntityType
  dataHash : String
  syncStatus : SyncStatus
  owlReference : Option String
  errorMessage : Option String
  lastSyncedAt : Nat
  createdAt : Nat
  updatedAt : Nat
deriving DecidableEq, Repr

/-- One row of the `sync_runs` table. -/
structure Counts where
  created : Nat
  updated : Nat
  skipped : Nat
  failed : Nat
deriving DecidableEq, Repr

/-- One row of the `sync_runs` table (`counts` is `none` until the run
completes, mirroring the `"{}"` placeholder written by `createRun`). -/
structure RunRow where
  runId : String
  startedAt : Nat
  completedAt : Option Nat
  mode : Mode
  dryRun : Bool
  entitiesSynced : List EntityType
  counts : Option Counts
  status : RunStatus
deriving DecidableEq, Repr

/-- A fetched source record: its stable `sourceId` plus the full JS object
(the fields that `hashEntity` receives). -/
structure SrcRecord where
  sourceId : String
  fields : JFields

/-- Per-item result appended to the run's results list. -/
structure SyncResult where
  entity : EntityType
  sourceId : String
  action : Action
  owlReference : Option String
  error : Option String
  timestamp : Nat
deriving DecidableEq, Repr

/-- The run summary returned by `runSync`. -/
structure SyncRunSummary where
  runId : String
  startedAt : Nat
  completedAt : Nat
  results : List SyncResult
  counts : Counts
deriving DecidableEq, Repr

/-- A per-entity-type change set. -/
structure ChangeSet where
  new : List SrcRecord
  changed : List SrcRecord
  unchanged : List SrcRecord

/-- Change sets for the three synchronized entity types. -/
structure DetectedChanges where
  clients : ChangeSet
  appointments : ChangeSet
  sessionNotes : ChangeSet

/-- Options accepted by `runSync`, with the defaults it applies. -/
structure SyncOptions where
  dryRun : Bool := false
  entities : List EntityType := [.client, .appointment, .sessionNote]
  mode : Mode := .automated
  useLedger : Bool := false

/-- The `(source_id, entity_type)` primary-key test. -/
def keyMatches (sid : String) (et : EntityType) (r : SyncRecord) : Bool :=
  r.sourceId == sid && r.entityType == et

/-- `findRecord`: point lookup by the primary key. -/
def findRecord (recs : List SyncRecord) (sid : String) (et : EntityType) :
    Option SyncRecord :=
  recs.find? (keyMatches sid et)

/-- The `DO UPDATE SET` clause of `upsertRecord`: `data_hash`,
`sync_status`, `error_message`, `last_synced_at` and `updated_at` come
from the excluded row, `owl_reference` is
`COALESCE(excluded.owl_reference, sync_records.owl_reference)`, and
`created_at` is kept. -/
def updOf (dataHash : String) (syncStatus : SyncStatus)
    (owlReference errorMessage : Option String) (now : Nat)
    (r : SyncRecord) : SyncRecord :=
  { r with
    dataHash := dataHash
    syncStatus := syncStatus
    owlReference := (match owlReference with
      | some v => some v
      | none => r.owlReference)
    errorMessage := errorMessage
    lastSyncedAt := now
    updatedAt := now }

/-- `upsertRecord`: INSERT .. ON CONFLICT(source_id, entity_type) DO UPDATE
(see `updOf` for the conflict clause). -/
def upsertRecord (recs : List SyncRecord) (sid : String) (et : EntityType)
    (dataHash : String) (syncStatus : SyncStatus)
    (owlReference : Option String) (errorMessage : Option String)
    (now : Nat) : List SyncRecord :=
  if recs.any (keyMatches sid et) then
    recs.map (fun r =>
      if keyMatches sid et r then updOf dataHash syncStatus owlReference errorMessage now r
      else r)
  else
    recs ++ [⟨recs.length + 1, sid, et, dataHash, syncStatus, owlReference,
              errorMessage, now, now, now⟩]

/-- `markSynced`. -/
def markSynced (recs : List SyncRecord) (sid : String) (et : EntityType)
    (dataHash : String) (owlReference : Option String) (now : Nat) :
    List SyncRecord :=
  upsertRecord recs sid et dataHash .synced owlReference none now

/-- `markFailed`. -/
def markFailed (recs : List SyncRecord) (sid : String) (et : EntityType)
    (dataHash : String) (error : String) (now : Nat) : List SyncRecord :=
  upsertRecord recs sid et dataHash .failed none (some error) now

/-- Modelled from the spec: the repository's `markPending(sourceId,
entityType, hash)` operation is imported and called by `runSync` but its
body is not among the present source files; per the spec it records the
item as `pending` immediately before delivery is attempted, so it is
modelled as the upsert of a `pending` entry with no reference and no
error. -/
def markPending (recs : List SyncRecord) (sid : String) (et : EntityType)
    (dataHash : String) (now : Nat) : List SyncRecord :=
  upsertRecord recs sid et dataHash .pending none none now

/-- `createRun`: insert a run row in `running` status with placeholder
entity list and counts. -/
def createRun (runs : List RunRow) (runId : String) (mode : Mode)
    (dryRun : Bool) (now : Nat) : List RunRow :=
  runs ++ [⟨runId, now, none, mode, dryRun, [], none, .running⟩]

/-- `completeRun`: UPDATE the matching run row with completion time,
entity list, counts and terminal status. -/
def completeRun (runs : List RunRow) (runId : String)
    (entitiesSynced : List EntityType) (counts : Counts)
    (status : RunStatus) (now : Nat) : List RunRow :=
  runs.map (fun row =>
    if row.runId == runId then
      { row with
        completedAt := some now
        entitiesSynced := entitiesSynced
        counts := some counts
        status := status }
    else row)

/-- `detectChanges`: partition freshly fetched records against the ledger.
It only reads the ledger (the `recs` argument); it performs no writes. -/
def detectChanges (entities : List SrcRecord) (et : EntityType)
    (recs : List SyncRecord) : ChangeSet :=
  match entities with
  | [] => ⟨[], [], []⟩
  | e :: rest =>
    let d := detectChanges rest et recs
    match findRecord recs e.sourceId et with
    | none => { d with new := e :: d.new }
    | some existing =>
      if existing.dataHash ≠ hashEntity e.fields ∨ existing.syncStatus = .pending then
        { d with changed := e :: d.changed }
      else
        { d with unchanged := e :: d.unchanged }

/-- Fetched source data grouped by entity type. -/
structure FetchedData where
  clients : List SrcRecord
  appointments : List SrcRecord
  sessionNotes : List SrcRecord

/-- `detectAllChanges`. -/
def detectAllChanges (data : FetchedData) (recs : List SyncRecord) :
    DetectedChanges :=
  ⟨detectChanges data.clients .client recs,
   detectChanges data.appointments .appointment recs,
   detectChanges data.sessionNotes .sessionNote recs⟩

/-- Outcome of one destination-adapter call: a returned result, or a
thrown error caught at the item boundary. -/
inductive AdapterOutcome where
  | ok (r : SyncResult)
  | thrown (msg : String)

/-- A destination adapter: given the entity type, the item, the current
ledger (the Owl client reads it via `findRecord`) and the clock, produce
an outcome. -/
abbrev Adapter := EntityType → SrcRecord → List SyncRecord → Nat → AdapterOutcome

/-- The real adapter methods always stamp the result with the item's
entity type and sourceId. -/
def AdapterCoherent (adapter : Adapter) : Prop :=
  ∀ et r recs t res, adapter et r recs t = .ok res →
    res.entity = et ∧ res.sourceId = r.sourceId

/-- JS truthiness of `record?.owlReference`: missing record, null
reference and empty-string reference are all falsy. -/
def refMissing : Option String → Bool
  | none => true
  | some s => s == ""

/-- `note.clientId` as the Owl client reads it (`if (note.clientId)`):
a non-empty string field, else nothing. -/
def clientIdOf (r : SrcRecord) : Option String :=
  match r.fields.lookup "clientId" with
  | some (.str s) => if s == "" then none else some s
  | _ => none

/-- The resolution of the note's owning client's Owl reference from the
ledger (`pushSessionNote` lines 213-220): look up the ledger entry for
`(note.clientId, client)` and take its `owlReference` when truthy. -/
def resolveOwlClientId (note : SrcRecord) (recs : List SyncRecord) : Option String :=
  match clientIdOf note with
  | none => none
  | some cid =>
    match findRecord recs cid .client with
    | none => none
    | some cr => if refMissing cr.owlReference then none else cr.owlReference

/-- `OwlPracticeClient.pushSessionNote`, with the two browser-automation
effects as oracles: `noteExists` is the value of `findExistingNote`, and
`createErr` is `some msg` when `navigateToSessionNotes`/`createSessionNote`
throws.  The ledger read resolving the owning client's Owl reference is
modelled exactly. -/
def pushSessionNote (noteExists : Bool) (createErr : Option String)
    (note : SrcRecord) (recs : List SyncRecord) (now : Nat) : SyncResult :=
  if noteExists then
    ⟨.sessionNote, note.sourceId, .skipped, none, none, now⟩
  else
    match resolveOwlClientId note recs with
    | none =>
      ⟨.sessionNote, note.sourceId, .failed, none,
       some "Owl client ID not found — sync clients first", now⟩
    | some _ =>
      match createErr with
      | none => ⟨.sessionNote, note.sourceId, .created, none, none, now⟩
      | some msg => ⟨.sessionNote, note.sourceId, .failed, none, some msg, now⟩

/-- Instrumentation record of one destination-adapter invocation:
the ledger before the item step, the ledger passed to the adapter,
the outcome, the result appended, and the ledger after the item step. -/
structure CallRecord where
  et : EntityType
  item : SrcRecord
  ledgerBefore : List SyncRecord
  ledgerAtCall : List SyncRecord
  outcome : AdapterOutcome
  result : SyncResult
  ledgerAfter : List SyncRecord

/-- The orchestrator's in-flight state: the `sync_records` table, the
clock, the in-memory results list, and the instrumented call log. -/
structure EngineSt where
  records : List SyncRecord
  clock : Nat
  results : List SyncResult
  calls : List CallRecord

/-- `recordResult`: terminal ledger write for an adapter-returned result
(`created`/`updated`/`skipped` mark synced, `failed` marks failed). -/
def recordResult (r : SyncResult) (item : SrcRecord)
    (recs : List SyncRecord) (now : Nat) : List SyncRecord :=
  let hash := hashEntity item.fields
  match r.action with
  | .created | .updated | .skipped =>
    markSynced recs item.sourceId r.entity hash r.owlReference now
  | .failed =>
    markFailed recs item.sourceId r.entity hash (r.error.getD "Unknown error") now

/-- One iteration of the per-item loop: mark pending (ledger-backed),
invoke the adapter, record the outcome; a thrown error is caught here and
converted to a failed result plus a failed ledger write. -/
def processItem (adapter : Adapter) (useLedger : Bool) (et : EntityType)
    (item : SrcRecord) (st : EngineSt) : EngineSt :=
  let hash := hashEntity item.fields
  let before := st.records
  let t1 := st.clock + 1
  let atCall := if useLedger then markPending before item.sourceId et hash t1 else before
  match adapter et item atCall t1 with
  | .ok r =>
    let after := if useLedger then recordResult r item atCall (t1 + 1) else atCall
    { records := after
      clock := t1 + 1
      results := st.results ++ [r]
      calls := st.calls ++ [⟨et, item, before, atCall, .ok r, r, after⟩] }
  | .thrown msg =>
    let res : SyncResult := ⟨et, item.sourceId, .failed, none, some msg, t1⟩
    let after := if useLedger then markFailed atCall item.sourceId et hash msg (t1 + 1) else atCall
    { records := after
      clock := t1 + 1
      results := st.results ++ [res]
      calls := st.calls ++ [⟨et, item, before, atCall, .thrown msg, res, after⟩] }

/-- The per-entity-type item loop. -/
def processItems (adapter : Adapter) (useLedger : Bool) (et : EntityType) :
    List SrcRecord → EngineSt → EngineSt
  | [], st => st
  | r :: rs, st => processItems adapter useLedger et rs (processItem adapter useLedger et r st)

/-- The client-phase work list: new and changed clients, plus (ledger-backed)
unchanged clients whose ledger entry is missing a truthy `owlReference`
(reference backfill). -/
def clientItems (cs : ChangeSet) (useLedger : Bool)
    (recs : List SyncRecord) : List SrcRecord :=
  cs.new ++ cs.changed ++
    (if useLedger then
      cs.unchanged.filter (fun c =>
        match findRecord recs c.sourceId .client with
        | none => true
        | some record => refMissing record.owlReference)
    else [])

/-- `buildSummary`: aggregate counts from the results list. -/
def countsOf (results : List SyncResult) : Counts :=
  ⟨(results.filter (fun r => r.action == .created)).length,
   (results.filter (fun r => r.action == .updated)).length,
   (results.filter (fun r => r.action == .skipped)).length,
   (results.filter (fun r => r.action == .failed)).length⟩

/-- `buildSummary`. -/
def buildSummary (runId : String) (startedAt : Nat)
    (results : List SyncResult) (completedAt : Nat) : SyncRunSummary :=
  ⟨runId, startedAt, completedAt, results, countsOf results⟩

/-- Run-level outcome: a returned summary, or a rethrown run-level error. -/
inductive RunOutcome where
  | success (s : SyncRunSummary)
  | runFailure (msg : String)

/-- Everything observable about one `runSync` invocation. -/
structure RunOutput where
  outcome : RunOutcome
  records : List SyncRecord
  runs : List RunRow
  calls : List CallRecord
  clock : Nat

/-- `runSync` (src/sync/index.ts): create the run row (ledger-backed),
short-circuit dry runs, connect (a failure finalizes the run as `failed`
and rethrows), process clients then appointments then session notes, and
finalize the run as `completed`.  `connect` is `some msg` when
`owl.connect()` throws. -/
def runSync (adapter : Adapter) (connect : Option String) (runId : String)
    (changes : DetectedChanges) (opts : SyncOptions)
    (records0 : List SyncRecord) (runs0 : List RunRow) (clock0 : Nat) :
    RunOutput :=
  let startedAt := clock0
  let runs1 := if opts.useLedger then
      createRun runs0 runId opts.mode opts.dryRun (clock0 + 1) else runs0
  if opts.dryRun then
    let summary := buildSummary runId startedAt [] (clock0 + 2)
    let runs2 := if opts.useLedger then
        completeRun runs1 runId opts.entities summary.counts .completed (clock0 + 3) else runs1
    ⟨.success summary, records0, runs2, [], clock0 + 3⟩
  else
    match connect with
    | some msg =>
      let summary := buildSummary runId startedAt [] (clock0 + 2)
      let runs2 := if opts.useLedger then
          completeRun runs1 runId opts.entities summary.counts .failed (clock0 + 3) else runs1
      ⟨.runFailure msg, records0, runs2, [], clock0 + 3⟩
    | none =>
      let st0 : EngineSt := ⟨records0, clock0 + 1, [], []⟩
      let st1 := if opts.entities.contains .client then
          processItems adapter opts.useLedger .client
            (clientItems changes.clients opts.useLedger st0.records) st0
        else st0
      let st2 := if opts.entities.contains .appointment then
          processItems adapter opts.useLedger .appointment
            (changes.appointments.new ++ changes.appointments.changed) st1
        else st1
      let st3 := if opts.entities.contains .sessionNote then
          processItems adapter opts.useLedger .sessionNote
            (changes.sessionNotes.new ++ changes.sessionNotes.changed) st2
        else st2
      let summary := buildSummary runId startedAt st3.results (st3.clock + 1)
      let runs2 := if opts.useLedger then
          completeRun runs1 runId opts.entities summary.counts .completed (st3.clock + 2) else runs1
      ⟨.success summary, st3.records, runs2, st3.calls, st3.clock + 2⟩

/-- The source-data list a record of a given entity type is fetched into. -/
def dataList (data : FetchedData) : EntityType → List SrcRecord
  | .client => data.clients
  | .appointment => data.appointments
  | .sessionNote => data.sessionNotes
  | .meetingLink => []

/-- The run route's response status string (route.ts line 87):
`completed_with_errors` exactly when `counts.failed > 0`. -/
def runRouteStatus (summary : SyncRunSummary) : String :=
  if summary.counts.failed > 0 then "completed_with_errors" else "completed"

/-- The HTTP status code of POST /api/sync/run as a function of everything
its body branches on: missing Owl credentials, missing PlaySpace
credentials, and whether the fetch/sync pipeline throws.  The handler
consults no run-in-progress state and has no other exit. -/
def postSyncRunCode (owlCredsPresent psCredsPresent : Bool)
    (pipelineThrows : Bool) : Nat :=
  if !owlCredsPresent then 500
  else if !psCredsPresent then 500
  else if pipelineThrows then 500
  else 200

/-- The HTTP status code of POST /api/sync/trigger as a function of
everything its body branches on: JSON parse failure, schema validation
failure, a thrown sync, and whether any item failed. -/
def postSyncTriggerCode (jsonOk schemaOk : Bool) (syncThrows : Bool)
    (anyFailed : Bool) : Nat :=
  if !jsonOk then 400
  else if !schemaOk then 400
  else if syncThrows then 500
  else if anyFailed then 207
  else 200

/-- One ledger write: a raw `upsertRecord`, or one of the `markSynced` /
`markFailed` / `markPending` wrappers. -/
inductive LedgerOp where
  | upsertOp (sid : String) (et : EntityType) (hash : String)
      (status : SyncStatus) (ref err : Option String)
  | syncedOp (sid : String) (et : EntityType) (hash : String) (ref : Option String)
  | failedOp (sid : String) (et : EntityType) (hash : String) (err : String)
  | pendingOp (sid : String) (et : EntityType) (hash : String)

/-- Apply one ledger operation. -/
def applyOp (recs : List SyncRecord) (now : Nat) : LedgerOp → List SyncRecord
  | .upsertOp sid et h st ref err => upsertRecord recs sid et h st ref err now
  | .syncedOp sid et h ref => markSynced recs sid et h ref now
  | .failedOp sid et h err => markFailed recs sid et h err now
  | .pendingOp sid et h => markPending recs sid et h now

/-- Apply a sequence of ledger operations, the clock ticking once per write. -/
def applyOps (recs : List SyncRecord) (now : Nat) : List LedgerOp → List SyncRecord
  | [] => recs
  | op :: ops => applyOps (applyOp recs now op) (now + 1) ops

/-- What one instrumented call record guarantees about the item step that
produced it. -/
def CallOk (adapter : Adapter) (u : Bool) (et : EntityType) (c : CallRecord) : Prop :=
  c.et = et ∧ ∃ t : Nat,
    c.ledgerAtCall = (if u then
      markPending c.ledgerBefore c.item.sourceId et (hashEntity c.item.fields) t
    else c.ledgerBefore) ∧
    c.outcome = adapter et c.item c.ledgerAtCall t ∧
    (∀ r, c.outcome = .ok r → c.result = r ∧
      c.ledgerAfter = (if u then recordResult r c.item c.ledgerAtCall (t + 1)
        else c.ledgerAtCall)) ∧
    (∀ msg, c.outcome = .thrown msg →
      c.result = ⟨et, c.item.sourceId, .failed, none, some msg, t⟩ ∧
      c.ledgerAfter = (if u then
        markFailed c.ledgerAtCall c.item.sourceId et (hashEntity c.item.fields) msg (t + 1)
      else c.ledgerAtCall))

/-- The per-call ledgers chain up: each call starts from the previous
call's final ledger. -/
def ChainFrom : List SyncRecord → List CallRecord → List SyncRecord → Prop
  | recs, [], final => final = recs
  | recs, c :: cs, final => c.ledgerBefore = recs ∧ ChainFrom c.ledgerAfter cs final

/-- The results list the caller sees: those of the summary on success,
nothing on a rethrown run failure. -/
def resultsOf : RunOutcome → List SyncResult
  | .success s => s.results
  | .runFailure _ => []

-- ---------------------------------------------------------------------------

-- Lemmas and claim theorems

-- ---------------------------------------------------------------------------

theorem keyMatches_updOf (sid' : String) (et' : EntityType) (h : String)
    (st : SyncStatus) (ref err : Option String) (now : Nat) (r : SyncRecord) :
    keyMatches sid' et' (updOf h st ref err now r) = keyMatches sid' et' r := by
  simp [keyMatches, updOf]

theorem keyMatches_iff (sid : String) (et : EntityType) (r : SyncRecord) :
    keyMatches sid et r = true ↔ (r.sourceId = sid ∧ r.entityType = et) := by
  simp [keyMatches]

theorem find?_map_upd {α : Type} (p : α → Bool) (f : α → α)
    (hf : ∀ x, p x = true → p (f x) = true) :
    ∀ (l : List α) (r : α), l.find? p = some r →
      (l.map (fun x => if p x then f x else x)).find? p = some (f r) := by
  intro l
  induction l with
  | nil => intro r hr; cases hr
  | cons a t ih =>
    intro r hr
    by_cases hp : p a = true
    · rw [List.find?_cons_of_pos _ hp] at hr
      cases hr
      simp only [List.map_cons, if_pos hp]
      exact List.find?_cons_of_pos _ (hf a hp)
    · rw [List.find?_cons_of_neg _ hp] at hr
      simp only [List.map_cons, if_neg hp]
      rw [List.find?_cons_of_neg _ hp]
      exact ih r hr

theorem findRecord_upsert_same (recs : List SyncRecord) (sid : String)
    (et : EntityType) (h : String) (st : SyncStatus) (ref err : Option String)
    (now : Nat) :
    findRecord (upsertRecord recs sid et h st ref err now) sid et =
      some (match findRecord recs sid et with
        | some r => updOf h st ref err now r
        | none => ⟨recs.length + 1, sid, et, h, st, ref, err, now, now, now⟩) := by
  unfold upsertRecord
  cases ha : recs.any (keyMatches sid et) with
  | true =>
    rw [if_pos rfl]
    obtain ⟨r, hr⟩ := Option.isSome_iff_exists.mp
      (List.find?_isSome.mpr (List.any_eq_true.mp ha))
    unfold findRecord
    rw [hr]
    exact find?_map_upd (keyMatches sid et) (updOf h st ref err now)
      (fun x hx => by rw [keyMatches_updOf]; exact hx) recs r hr
  | false =>
    rw [if_neg (by simp)]
    unfold findRecord
    have hnone : recs.find? (keyMatches sid et) = none := by
      rw [List.find?_eq_none]
      intro x hx hpx
      exact absurd hpx (by simpa using List.any_eq_false.mp (by simpa using ha) x hx)
    rw [hnone, List.find?_append, hnone]
    simp [keyMatches]

theorem findRecord_upsert_other (recs : List SyncRecord) (sid sid' : String)
    (et et' : EntityType) (h : String) (st : SyncStatus) (ref err : Option String)
    (now : Nat) (hne : ¬(sid' = sid ∧ et' = et)) :
    findRecord (upsertRecord recs sid et h st ref err now) sid' et' =
      findRecord recs sid' et' := by
  unfold upsertRecord
  cases ha : recs.any (keyMatches sid et) with
  | true =>
    rw [if_pos rfl]
    unfold findRecord
    rw [List.find?_map]
    have hcomp : (keyMatches sid' et' ∘ fun x =>
        if keyMatches sid et x then updOf h st ref err now x else x) =
        keyMatches sid' et' := by
      funext x
      by_cases hp : keyMatches sid et x = true
      · simp [Function.comp, hp, keyMatches_updOf]
      · simp [Function.comp, hp]
    rw [hcomp]
    cases hq : recs.find? (keyMatches sid' et') with
    | none => rfl
    | some x =>
      have hxk := (keyMatches_iff sid' et' x).mp (List.find?_some hq)
      have hpx : keyMatches sid et x = false := by
        cases hpt : keyMatches sid et x
        · rfl
        · exfalso
          have h1 := (keyMatches_iff sid et x).mp hpt
          exact hne ⟨hxk.1.symm.trans h1.1, hxk.2.symm.trans h1.2⟩
      simp [hpx]
  | false =>
    rw [if_neg (by simp)]
    unfold findRecord
    rw [List.find?_append]
    have hsing : ([(⟨recs.length + 1, sid, et, h, st, ref, err, now, now, now⟩ :
        SyncRecord)].find? (keyMatches sid' et')) = none := by
      rw [List.find?_eq_none]
      intro x hx hpx
      rcases List.mem_singleton.mp hx with rfl
      have hk := (keyMatches_iff sid' et' _).mp hpx
      exact hne ⟨hk.1.symm, hk.2.symm⟩
    rw [hsing]
    cases recs.find? (keyMatches sid' et') <;> rfl

theorem upsert_preserves_ref (recs : List SyncRecord) (sid sid' : String)
    (et et' : EntityType) (h : String) (st : SyncStatus) (ref err : Option String)
    (now : Nat) (r : SyncRecord)
    (hf : findRecord recs sid et = some r) (hr : r.owlReference ≠ none) :
    ∃ r', findRecord (upsertRecord recs sid' et' h st ref err now) sid et = some r' ∧
      r'.owlReference ≠ none := by
  by_cases hk : sid = sid' ∧ et = et'
  · obtain ⟨rfl, rfl⟩ := hk
    rw [findRecord_upsert_same, hf]
    refine ⟨_, rfl, ?_⟩
    cases ref with
    | none => simpa [updOf] using hr
    | some v => simp [updOf]
  · rw [findRecord_upsert_other recs sid' sid et' et h st ref err now hk]
    exact ⟨r, hf, hr⟩

theorem findRecord_markFailed_self (recs : List SyncRecord) (sid : String)
    (et : EntityType) (h msg : String) (now : Nat) :
    ∃ e, findRecord (markFailed recs sid et h msg now) sid et = some e ∧
      e.syncStatus = .failed ∧ e.errorMessage = some msg ∧ e.dataHash = h := by
  unfold markFailed
  rw [findRecord_upsert_same]
  cases findRecord recs sid et with
  | none => exact ⟨_, rfl, rfl, rfl, rfl⟩
  | some old => exact ⟨_, rfl, by simp [updOf]⟩

theorem findRecord_markPending_self (recs : List SyncRecord) (sid : String)
    (et : EntityType) (h : String) (now : Nat) :
    ∃ e, findRecord (markPending recs sid et h now) sid et = some e ∧
      e.syncStatus = .pending ∧ e.dataHash = h := by
  unfold markPending
  rw [findRecord_upsert_same]
  cases findRecord recs sid et with
  | none => exact ⟨_, rfl, rfl, rfl⟩
  | some old => exact ⟨_, rfl, by simp [updOf]⟩

theorem applyOp_preserves_ref (op : LedgerOp) (recs : List SyncRecord) (now : Nat)
    (sid : String) (et : EntityType) (r : SyncRecord)
    (hf : findRecord recs sid et = some r) (hr : r.owlReference ≠ none) :
    ∃ r', findRecord (applyOp recs now op) sid et = some r' ∧ r'.owlReference ≠ none := by
  cases op with
  | upsertOp sid' et' h st ref err => exact upsert_preserves_ref recs sid sid' et et' h st ref err now r hf hr
  | syncedOp sid' et' h ref => exact upsert_preserves_ref recs sid sid' et et' h .synced ref none now r hf hr
  | failedOp sid' et' h err => exact upsert_preserves_ref recs sid sid' et et' h .failed none (some err) now r hf hr
  | pendingOp sid' et' h => exact upsert_preserves_ref recs sid sid' et et' h .pending none none now r hf hr

theorem applyOps_preserves_ref :
    ∀ (ops : List LedgerOp) (recs : List SyncRecord) (now : Nat)
      (sid : String) (et : EntityType) (r : SyncRecord),
      findRecord recs sid et = some r → r.owlReference ≠ none →
      ∃ r', findRecord (applyOps recs now ops) sid et = some r' ∧
        r'.owlReference ≠ none := by
  intro ops
  induction ops with
  | nil => exact fun recs now sid et r hf hr => ⟨r, hf, hr⟩
  | cons op ops ih =>
    intro recs now sid et r hf hr
    obtain ⟨r', hf', hr'⟩ := applyOp_preserves_ref op recs now sid et r hf hr
    exact ih (applyOp recs now op) (now + 1) sid et r' hf' hr'

theorem detect_mem_new (et : EntityType) (recs : List SyncRecord) :
    ∀ (es : List SrcRecord) (r : SrcRecord),
      r ∈ (detectChanges es et recs).new ↔
        (r ∈ es ∧ findRecord recs r.sourceId et = none) := by
  intro es
  induction es with
  | nil => intro r; simp [detectChanges]
  | cons e rest ih =>
    intro r
    rw [detectChanges]
    cases h : findRecord recs e.sourceId et with
    | none =>
      simp only [List.mem_cons]
      constructor
      · rintro (rfl | hr)
        · exact ⟨Or.inl rfl, h⟩
        · exact ⟨Or.inr ((ih r).mp hr).1, ((ih r).mp hr).2⟩
      · rintro ⟨(rfl | hr), hf⟩
        · exact Or.inl rfl
        · exact Or.inr ((ih r).mpr ⟨hr, hf⟩)
    | some existing =>
      by_cases hc : existing.dataHash ≠ hashEntity e.fields ∨ existing.syncStatus = .pending
      · simp only [if_pos hc, List.mem_cons]
        constructor
        · intro hr
          exact ⟨Or.inr ((ih r).mp hr).1, ((ih r).mp hr).2⟩
        · rintro ⟨(rfl | hr), hf⟩
          · rw [hf] at h; cases h
          · exact (ih r).mpr ⟨hr, hf⟩
      · simp only [if_neg hc, List.mem_cons]
        constructor
        · intro hr
          exact ⟨Or.inr ((ih r).mp hr).1, ((ih r).mp hr).2⟩
        · rintro ⟨(rfl | hr), hf⟩
          · rw [hf] at h; cases h
          · exact (ih r).mpr ⟨hr, hf⟩

theorem detect_mem_changed (et : EntityType) (recs : List SyncRecord) :
    ∀ (es : List SrcRecord) (r : SrcRecord),
      r ∈ (detectChanges es et recs).changed ↔
        (r ∈ es ∧ ∃ ex, findRecord recs r.sourceId et = some ex ∧
          (ex.syncStatus = .pending ∨ ex.dataHash ≠ hashEntity r.fields)) := by
  intro es
  induction es with
  | nil => intro r; simp [detectChanges]
  | cons e rest ih =>
    intro r
    rw [detectChanges]
    cases h : findRecord recs e.sourceId et with
    | none =>
      simp only [List.mem_cons]
      constructor
      · intro hr
        exact ⟨Or.inr ((ih r).mp hr).1, ((ih r).mp hr).2⟩
      · rintro ⟨(rfl | hr), ex, hf, hcond⟩
        · rw [hf] at h; cases h
        · exact (ih r).mpr ⟨hr, ex, hf, hcond⟩
    | some existing =>
      by_cases hc : existing.dataHash ≠ hashEntity e.fields ∨ existing.syncStatus = .pending
      · simp only [if_pos hc, List.mem_cons]
        constructor
        · rintro (rfl | hr)
          · exact ⟨Or.inl rfl, existing, h, hc.symm⟩
          · exact ⟨Or.inr ((ih r).mp hr).1, ((ih r).mp hr).2⟩
        · rintro ⟨(rfl | hr), ex, hf, hcond⟩
          · exact Or.inl rfl
          · exact Or.inr ((ih r).mpr ⟨hr, ex, hf, hcond⟩)
      · simp only [if_neg hc, List.mem_cons]
        push_neg at hc
        constructor
        · intro hr
          exact ⟨Or.inr ((ih r).mp hr).1, ((ih r).mp hr).2⟩
        · rintro ⟨(rfl | hr), ex, hf, hcond⟩
          · rw [hf] at h
            cases h
            rcases hcond with hp | hh
            · exact absurd hp hc.2
            · exact absurd hc.1 hh
          · exact (ih r).mpr ⟨hr, ex, hf, hcond⟩

theorem detect_mem_unchanged (et : EntityType) (recs : List SyncRecord) :
    ∀ (es : List SrcRecord) (r : SrcRecord),
      r ∈ (detectChanges es et recs).unchanged ↔
        (r ∈ es ∧ ∃ ex, findRecord recs r.sourceId et = some ex ∧
          ex.syncStatus ≠ .pending ∧ ex.dataHash = hashEntity r.fields) := by
  intro es
  induction es with
  | nil => intro r; simp [detectChanges]
  | cons e rest ih =>
    intro r
    rw [detectChanges]
    cases h : findRecord recs e.sourceId et with
    | none =>
      simp only [List.mem_cons]
      constructor
      · intro hr
        exact ⟨Or.inr ((ih r).mp hr).1, ((ih r).mp hr).2⟩
      · rintro ⟨(rfl | hr), ex, hf, hcond⟩
        · rw [hf] at h; cases h
        · exact (ih r).mpr ⟨hr, ex, hf, hcond⟩
    | some existing =>
      by_cases hc : existing.dataHash ≠ hashEntity e.fields ∨ existing.syncStatus = .pending
      · simp only [if_pos hc, List.mem_cons]
        constructor
        · intro hr
          exact ⟨Or.inr ((ih r).mp hr).1, ((ih r).mp hr).2⟩
        · rintro ⟨(rfl | hr), ex, hf, hcond⟩
          · rw [hf] at h
            cases h
            rcases hc with hh | hp
            · exact absurd hcond.2 hh
            · exact absurd hp hcond.1
          · exact (ih r).mpr ⟨hr, ex, hf, hcond⟩
      · simp only [if_neg hc, List.mem_cons]
        push_neg at hc
        constructor
        · rintro (rfl | hr)
          · exact ⟨Or.inl rfl, existing, h, hc.2, hc.1⟩
          · exact ⟨Or.inr ((ih r).mp hr).1, ((ih r).mp hr).2⟩
        · rintro ⟨(rfl | hr), ex, hf, hcond⟩
          · exact Or.inl rfl
          · exact Or.inr ((ih r).mpr ⟨hr, ex, hf, hcond⟩)

theorem detect_perm (et : EntityType) (recs : List SyncRecord) :
    ∀ (es : List SrcRecord),
      ((detectChanges es et recs).new ++ (detectChanges es et recs).changed ++
        (detectChanges es et recs).unchanged).Perm es := by
  intro es
  induction es with
  | nil => simp [detectChanges]
  | cons e rest ih =>
    rw [detectChanges]
    cases h : findRecord recs e.sourceId et with
    | none =>
      exact ih.cons e
    | some existing =>
      by_cases hc : existing.dataHash ≠ hashEntity e.fields ∨ existing.syncStatus = .pending
      · simp only [if_pos hc]
        refine List.Perm.trans ?_ (ih.cons e)
        have h1 : List.Perm
            ((detectChanges rest et recs).new ++
              (e :: ((detectChanges rest et recs).changed ++ (detectChanges rest et recs).unchanged)))
            (e :: ((detectChanges rest et recs).new ++
              ((detectChanges rest et recs).changed ++ (detectChanges rest et recs).unchanged))) :=
          List.perm_middle
        simpa [List.append_assoc] using h1
      · simp only [if_neg hc]
        refine List.Perm.trans ?_ (ih.cons e)
        have h1 : List.Perm
            (((detectChanges rest et recs).new ++ (detectChanges rest et recs).changed) ++
              (e :: (detectChanges rest et recs).unchanged))
            (e :: (((detectChanges rest et recs).new ++ (detectChanges rest et recs).changed) ++
              (detectChanges rest et recs).unchanged)) :=
          List.perm_middle
        simpa [List.append_assoc] using h1

theorem processItem_call (adapter : Adapter) (u : Bool) (et : EntityType)
    (item : SrcRecord) (st : EngineSt) :
    ∃ c : CallRecord,
      processItem adapter u et item st =
        ⟨c.ledgerAfter, st.clock + 2, st.results ++ [c.result], st.calls ++ [c]⟩ ∧
      c.item = item ∧ c.ledgerBefore = st.records ∧ CallOk adapter u et c := by
  unfold processItem
  dsimp only
  cases ho : adapter et item
      (if u then markPending st.records item.sourceId et (hashEntity item.fields) (st.clock + 1)
        else st.records) (st.clock + 1) with
  | ok r =>
    refine ⟨⟨et, item, st.records,
      (if u then markPending st.records item.sourceId et (hashEntity item.fields) (st.clock + 1)
        else st.records), .ok r, r,
      (if u then recordResult r item
        (if u then markPending st.records item.sourceId et (hashEntity item.fields) (st.clock + 1)
          else st.records) (st.clock + 2)
        else (if u then markPending st.records item.sourceId et (hashEntity item.fields) (st.clock + 1)
          else st.records))⟩, ?_, rfl, rfl, rfl, ⟨st.clock + 1, rfl, ho.symm, ?_, ?_⟩⟩
    · rfl
    · intro r' hr'
      cases hr'
      exact ⟨rfl, rfl⟩
    · intro msg hmsg
      cases hmsg
  | thrown msg =>
    refine ⟨⟨et, item, st.records,
      (if u then markPending st.records item.sourceId et (hashEntity item.fields) (st.clock + 1)
        else st.records), .thrown msg,
      ⟨et, item.sourceId, .failed, none, some msg, st.clock + 1⟩,
      (if u then markFailed
        (if u then markPending st.records item.sourceId et (hashEntity item.fields) (st.clock + 1)
          else st.records) item.sourceId et (hashEntity item.fields) msg (st.clock + 2)
        else (if u then markPending st.records item.sourceId et (hashEntity item.fields) (st.clock + 1)
          else st.records))⟩, ?_, rfl, rfl, rfl, ⟨st.clock + 1, rfl, ho.symm, ?_, ?_⟩⟩
    · rfl
    · intro r' hr'
      cases hr'
    · intro msg' hmsg'
      cases hmsg'
      exact ⟨rfl, rfl⟩

theorem processItems_spec (adapter : Adapter) (u : Bool) (et : EntityType) :
    ∀ (items : List SrcRecord) (st : EngineSt),
      ∃ nc : List CallRecord,
        (processItems adapter u et items st).calls = st.calls ++ nc ∧
        (processItems adapter u et items st).results =
          st.results ++ nc.map (fun c => c.result) ∧
        nc.map (fun c => c.item) = items ∧
        (∀ c ∈ nc, CallOk adapter u et c) ∧
        ChainFrom st.records nc (processItems adapter u et items st).records := by
  intro items
  induction items with
  | nil =>
    intro st
    exact ⟨[], by simp [processItems], by simp [processItems], rfl, by simp, by
      simp [processItems, ChainFrom]⟩
  | cons item rest ih =>
    intro st
    obtain ⟨c, heq, hitem, hbefore, hok⟩ := processItem_call adapter u et item st
    obtain ⟨nc, h1, h2, h3, h4, h5⟩ := ih (processItem adapter u et item st)
    have hpi : processItems adapter u et (item :: rest) st =
        processItems adapter u et rest (processItem adapter u et item st) := rfl
    refine ⟨c :: nc, ?_, ?_, ?_, ?_, ?_⟩
    · rw [hpi, h1, heq]
      simp
    · rw [hpi, h2, heq]
      simp
    · simp [h3, hitem]
    · intro x hx
      rcases List.mem_cons.mp hx with rfl | hx'
      · exact hok
      · exact h4 x hx'
    · rw [hpi]
      refine ⟨hbefore, ?_⟩
      have : (processItem adapter u et item st).records = c.ledgerAfter := by rw [heq]
      rw [← this]
      exact h5

theorem chainFrom_append (l1 l2 : List CallRecord) :
    ∀ (recs final : List SyncRecord), ChainFrom recs (l1 ++ l2) final ↔
      ∃ mid, ChainFrom recs l1 mid ∧ ChainFrom mid l2 final := by
  induction l1 with
  | nil =>
    intro recs final
    constructor
    · intro h
      exact ⟨recs, rfl, h⟩
    · rintro ⟨mid, hm, h2⟩
      cases hm
      exact h2
  | cons c cs ih =>
    intro recs final
    constructor
    · rintro ⟨hb, hrest⟩
      obtain ⟨mid, ha, hb2⟩ := (ih c.ledgerAfter final).mp hrest
      exact ⟨mid, ⟨hb, ha⟩, hb2⟩
    · rintro ⟨mid, ⟨hb, ha⟩, h2⟩
      exact ⟨hb, (ih c.ledgerAfter final).mpr ⟨mid, ha, h2⟩⟩

theorem phase_spec (adapter : Adapter) (u : Bool) (et : EntityType) (b : Bool)
    (items : List SrcRecord) (st : EngineSt) :
    ∃ nc : List CallRecord,
      (if b then processItems adapter u et items st else st).calls = st.calls ++ nc ∧
      (if b then processItems adapter u et items st else st).results =
        st.results ++ nc.map (fun c => c.result) ∧
      nc.map (fun c => c.item) = (if b then items else []) ∧
      (∀ c ∈ nc, CallOk adapter u et c) ∧
      ChainFrom st.records nc ((if b then processItems adapter u et items st else st).records) := by
  cases b with
  | false => exact ⟨[], by simp, by simp, by simp, by simp, by simp [ChainFrom]⟩
  | true =>
    obtain ⟨nc, h1, h2, h3, h4, h5⟩ := processItems_spec adapter u et items st
    exact ⟨nc, h1, h2, by simpa using h3, h4, h5⟩

theorem runSync_spec (adapter : Adapter) (runId : String)
    (changes : DetectedChanges) (opts : SyncOptions)
    (records0 : List SyncRecord) (runs0 : List RunRow) (clock0 : Nat)
    (hdry : opts.dryRun = false) :
    ∃ (ncC ncA ncN : List CallRecord) (s : SyncRunSummary),
      (runSync adapter none runId changes opts records0 runs0 clock0).outcome = .success s ∧
      (runSync adapter none runId changes opts records0 runs0 clock0).calls =
        ncC ++ ncA ++ ncN ∧
      s.results = (ncC ++ ncA ++ ncN).map (fun c => c.result) ∧
      s.counts = countsOf s.results ∧
      ncC.map (fun c => c.item) = (if opts.entities.contains .client then
        clientItems changes.clients opts.useLedger records0 else []) ∧
      ncA.map (fun c => c.item) = (if opts.entities.contains .appointment then
        changes.appointments.new ++ changes.appointments.changed else []) ∧
      ncN.map (fun c => c.item) = (if opts.entities.contains .sessionNote then
        changes.sessionNotes.new ++ changes.sessionNotes.changed else []) ∧
      (∀ c ∈ ncC, CallOk adapter opts.useLedger .client c) ∧
      (∀ c ∈ ncA, CallOk adapter opts.useLedger .appointment c) ∧
      (∀ c ∈ ncN, CallOk adapter opts.useLedger .sessionNote c) ∧
      ChainFrom records0 (ncC ++ ncA ++ ncN)
        (runSync adapter none runId changes opts records0 runs0 clock0).records ∧
      (∃ tr, (runSync adapter none runId changes opts records0 runs0 clock0).runs =
        (if opts.useLedger then
          completeRun (createRun runs0 runId opts.mode false (clock0 + 1)) runId
            opts.entities s.counts .completed tr
        else runs0)) := by
  unfold runSync
  rw [hdry]
  rw [if_neg (by simp)]
  dsimp only
  obtain ⟨ncC, hC1, hC2, hC3, hC4, hC5⟩ :=
    phase_spec adapter opts.useLedger EntityType.client
      (opts.entities.contains EntityType.client)
      (clientItems changes.clients opts.useLedger records0)
      ⟨records0, clock0 + 1, [], []⟩
  obtain ⟨ncA, hA1, hA2, hA3, hA4, hA5⟩ :=
    phase_spec adapter opts.useLedger EntityType.appointment
      (opts.entities.contains EntityType.appointment)
      (changes.appointments.new ++ changes.appointments.changed)
      (if opts.entities.contains EntityType.client then
        processItems adapter opts.useLedger EntityType.client
          (clientItems changes.clients opts.useLedger records0)
          ⟨records0, clock0 + 1, [], []⟩
      else ⟨records0, clock0 + 1, [], []⟩)
  obtain ⟨ncN, hN1, hN2, hN3, hN4, hN5⟩ :=
    phase_spec adapter opts.useLedger EntityType.sessionNote
      (opts.entities.contains EntityType.sessionNote)
      (changes.sessionNotes.new ++ changes.sessionNotes.changed)
      (if opts.entities.contains EntityType.appointment then
        processItems adapter opts.useLedger EntityType.appointment
          (changes.appointments.new ++ changes.appointments.changed)
          (if opts.entities.contains EntityType.client then
            processItems adapter opts.useLedger EntityType.client
              (clientItems changes.clients opts.useLedger records0)
              ⟨records0, clock0 + 1, [], []⟩
          else ⟨records0, clock0 + 1, [], []⟩)
      else
        (if opts.entities.contains EntityType.client then
          processItems adapter opts.useLedger EntityType.client
            (clientItems changes.clients opts.useLedger records0)
            ⟨records0, clock0 + 1, [], []⟩
        else ⟨records0, clock0 + 1, [], []⟩))
  refine ⟨ncC, ncA, ncN, _, rfl, ?_, ?_, rfl, hC3, hA3, hN3, hC4, hA4, hN4, ?_, ?_⟩
  · rw [hN1, hA1, hC1]
    simp [List.append_assoc]
  · rw [hN2, hA2, hC2]
    simp [buildSummary, List.map_append, List.append_assoc]
  · refine (chainFrom_append (ncC ++ ncA) ncN _ _).mpr ⟨_, ?_, hN5⟩
    exact (chainFrom_append ncC ncA _ _).mpr ⟨_, hC5, hA5⟩
  · cases hu : opts.useLedger with
    | true => exact ⟨_, rfl⟩
    | false => exact ⟨0, rfl⟩

theorem callOk_preserves (adapter : Adapter) (u : Bool) (c : CallRecord)
    (hok : CallOk adapter u c.et c) (hco : AdapterCoherent adapter)
    (sid' : String) (et' : EntityType)
    (hne : ¬(sid' = c.item.sourceId ∧ et' = c.et)) :
    findRecord c.ledgerAtCall sid' et' = findRecord c.ledgerBefore sid' et' ∧
    findRecord c.ledgerAfter sid' et' = findRecord c.ledgerBefore sid' et' := by
  obtain ⟨-, t, hat, hoad, hokk, hthr⟩ := hok
  have hatp : findRecord c.ledgerAtCall sid' et' = findRecord c.ledgerBefore sid' et' := by
    rw [hat]
    cases u with
    | false => rfl
    | true =>
      rw [if_pos rfl]
      unfold markPending
      exact findRecord_upsert_other _ _ _ _ _ _ _ _ _ _ hne
  refine ⟨hatp, ?_⟩
  cases ho : c.outcome with
  | ok r =>
    obtain ⟨-, hafter⟩ := hokk r ho
    have hent : r.entity = c.et :=
      (hco c.et c.item c.ledgerAtCall t r (hoad.symm.trans ho)).1
    rw [hafter]
    cases u with
    | false => exact hatp
    | true =>
      rw [if_pos rfl]
      have hne' : ¬(sid' = c.item.sourceId ∧ et' = r.entity) := by
        rw [hent]
        exact hne
      cases hract : r.action with
      | created =>
        simp only [recordResult, hract]
        unfold markSynced
        rw [findRecord_upsert_other _ _ _ _ _ _ _ _ _ _ hne']
        exact hatp
      | updated =>
        simp only [recordResult, hract]
        unfold markSynced
        rw [findRecord_upsert_other _ _ _ _ _ _ _ _ _ _ hne']
        exact hatp
      | skipped =>
        simp only [recordResult, hract]
        unfold markSynced
        rw [findRecord_upsert_other _ _ _ _ _ _ _ _ _ _ hne']
        exact hatp
      | failed =>
        simp only [recordResult, hract]
        unfold markFailed
        rw [findRecord_upsert_other _ _ _ _ _ _ _ _ _ _ hne']
        exact hatp
  | thrown msg =>
    obtain ⟨-, hafter⟩ := hthr msg ho
    rw [hafter]
    cases u with
    | false => exact hatp
    | true =>
      rw [if_pos rfl]
      unfold markFailed
      rw [findRecord_upsert_other _ _ _ _ _ _ _ _ _ _ hne]
      exact hatp

theorem chain_preserves (adapter : Adapter) (u : Bool)
    (hco : AdapterCoherent adapter) (sid' : String) (et' : EntityType) :
    ∀ (nc : List CallRecord) (recs final : List SyncRecord),
      ChainFrom recs nc final →
      (∀ c ∈ nc, CallOk adapter u c.et c) →
      (∀ c ∈ nc, ¬(sid' = c.item.sourceId ∧ et' = c.et)) →
      findRecord final sid' et' = findRecord recs sid' et' ∧
      (∀ c ∈ nc, findRecord c.ledgerBefore sid' et' = findRecord recs sid' et' ∧
        findRecord c.ledgerAtCall sid' et' = findRecord recs sid' et') := by
  intro nc
  induction nc with
  | nil =>
    intro recs final hch _ _
    cases hch
    exact ⟨rfl, by simp⟩
  | cons c cs ih =>
    intro recs final hch hok hne
    obtain ⟨hb, hrest⟩ := hch
    have hstep := callOk_preserves adapter u c (hok c (List.mem_cons_self c cs)) hco
      sid' et' (hne c (List.mem_cons_self c cs))
    obtain ⟨hfin, hall⟩ := ih c.ledgerAfter final hrest
      (fun x hx => hok x (List.mem_cons_of_mem c hx))
      (fun x hx => hne x (List.mem_cons_of_mem c hx))
    rw [hb] at hstep
    constructor
    · rw [hfin, hstep.2]
    · intro x hx
      rcases List.mem_cons.mp hx with rfl | hx'
    
      · exact ⟨by rw [hb], by rw [hstep.1]⟩
      · have := hall x hx'
        rw [hstep.2] at this
        exact this

theorem runSync_dry (adapter : Adapter) (connect : Option String)
    (runId : String) (changes : DetectedChanges) (opts : SyncOptions)
    (records0 : List SyncRecord) (runs0 : List RunRow) (clock0 : Nat)
    (hdry : opts.dryRun = true) :
    runSync adapter connect runId changes opts records0 runs0 clock0 =
      ⟨.success (buildSummary runId clock0 [] (clock0 + 2)), records0,
        (if opts.useLedger then
          completeRun (createRun runs0 runId opts.mode opts.dryRun (clock0 + 1))
            runId opts.entities (countsOf []) .completed (clock0 + 3)
        else runs0), [], clock0 + 3⟩ := by
  cases hul : opts.useLedger with
  | true => unfold runSync; rw [hdry, hul]; rfl
  | false => unfold runSync; rw [hdry, hul]; rfl

theorem runSync_connect_fail (adapter : Adapter) (msg runId : String)
    (changes : DetectedChanges) (opts : SyncOptions)
    (records0 : List SyncRecord) (runs0 : List RunRow) (clock0 : Nat)
    (hdry : opts.dryRun = false) :
    runSync adapter (some msg) runId changes opts records0 runs0 clock0 =
      ⟨.runFailure msg, records0,
        (if opts.useLedger then
          completeRun (createRun runs0 runId opts.mode opts.dryRun (clock0 + 1))
            runId opts.entities (countsOf []) .failed (clock0 + 3)
        else runs0), [], clock0 + 3⟩ := by
  cases hul : opts.useLedger with
  | true => unfold runSync; rw [hdry, hul]; rfl
  | false => unfold runSync; rw [hdry, hul]; rfl

theorem callOk_result_fields (adapter : Adapter) (u : Bool) (P : EntityType)
    (c : CallRecord) (hok : CallOk adapter u P c) (hco : AdapterCoherent adapter) :
    c.result.entity = P ∧ c.result.sourceId = c.item.sourceId := by
  obtain ⟨-, t, hat, hoad, hokk, hthr⟩ := hok
  cases ho : c.outcome with
  | ok r =>
    obtain ⟨hr1, -⟩ := hokk r ho
    have hcoh := hco P c.item c.ledgerAtCall t r (hoad.symm.trans ho)
    rw [hr1]
    exact hcoh
  | thrown msg =>
    obtain ⟨hr1, -⟩ := hthr msg ho
    rw [hr1]
    exact ⟨rfl, rfl⟩

theorem runRouteStatus_iff (s : SyncRunSummary) :
    ((runRouteStatus s = "completed_with_errors") ↔ 0 < s.counts.failed) ∧
    ((runRouteStatus s = "completed") ↔ s.counts.failed = 0) := by
  unfold runRouteStatus
  by_cases hf : s.counts.failed > 0
  · rw [if_pos hf]
    constructor
    · exact ⟨fun _ => hf, fun _ => rfl⟩
    · constructor
      · intro hcon
        exact absurd hcon (by decide)
      · intro h0
        omega
  · rw [if_neg hf]
    constructor
    · constructor
      · intro hcon
        exact absurd hcon.symm (by decide)
      · intro hpos
        exact absurd hpos hf
    · exact ⟨fun _ => by omega, fun _ => rfl⟩

/-- C2: for every fetched record, `detectChanges` places the record in
exactly one of the three output lists, which partition the input; it is in
`new` iff no ledger entry exists for `(sourceId, entityType)`, in `changed`
iff an entry exists whose status is `pending` or whose stored hash differs
from the record's fingerprint, and in `unchanged` otherwise — in
particular a `pending` entry is classified `changed` regardless of hash
match.  The function only reads the ledger (its `recs` argument) and
performs no ledger writes: its result is the change set alone. -/
theorem change_detector_classification (entities : List SrcRecord)
    (et : EntityType) (recs : List SyncRecord) :
    ((detectChanges entities et recs).new ++ (detectChanges entities et recs).changed ++
      (detectChanges entities et recs).unchanged).Perm entities ∧
    (∀ r : SrcRecord,
      (r ∈ (detectChanges entities et recs).new ↔
        r ∈ entities ∧ findRecord recs r.sourceId et = none) ∧
      (r ∈ (detectChanges entities et recs).changed ↔
        r ∈ entities ∧ ∃ ex, findRecord recs r.sourceId et = some ex ∧
          (ex.syncStatus = .pending ∨ ex.dataHash ≠ hashEntity r.fields)) ∧
      (r ∈ (detectChanges entities et recs).unchanged ↔
        r ∈ entities ∧ ∃ ex, findRecord recs r.sourceId et = some ex ∧
          ex.syncStatus ≠ .pending ∧ ex.dataHash = hashEntity r.fields)) ∧
    (∀ r ∈ entities,
      (r ∈ (detectChanges entities et recs).new ∧
        r ∉ (detectChanges entities et recs).changed ∧
        r ∉ (detectChanges entities et recs).unchanged) ∨
      (r ∉ (detectChanges entities et recs).new ∧
        r ∈ (detectChanges entities et recs).changed ∧
        r ∉ (detectChanges entities et recs).unchanged) ∨
      (r ∉ (detectChanges entities et recs).new ∧
        r ∉ (detectChanges entities et recs).changed ∧
        r ∈ (detectChanges entities et recs).unchanged)) := by
  refine ⟨detect_perm et recs entities,
    fun r => ⟨detect_mem_new et recs entities r, detect_mem_changed et recs entities r,
      detect_mem_unchanged et recs entities r⟩, ?_⟩
  intro r hr
  cases h : findRecord recs r.sourceId et with
  | none =>
    refine Or.inl ⟨(detect_mem_new et recs entities r).mpr ⟨hr, h⟩, ?_, ?_⟩
    · intro hc
      obtain ⟨-, ex, hf, -⟩ := (detect_mem_changed et recs entities r).mp hc
      rw [h] at hf; cases hf
    · intro hu
      obtain ⟨-, ex, hf, -⟩ := (detect_mem_unchanged et recs entities r).mp hu
      rw [h] at hf; cases hf
  | some ex =>
    by_cases hc : ex.syncStatus = .pending ∨ ex.dataHash ≠ hashEntity r.fields
    · refine Or.inr (Or.inl ⟨?_, (detect_mem_changed et recs entities r).mpr ⟨hr, ex, h, hc⟩, ?_⟩)
      · intro hn
        obtain ⟨-, hf⟩ := (detect_mem_new et recs entities r).mp hn
        rw [h] at hf; cases hf
      · intro hu
        obtain ⟨-, ex', hf, hp, hh⟩ := (detect_mem_unchanged et recs entities r).mp hu
        rw [h] at hf
        cases hf
        rcases hc with h1 | h1
        · exact hp h1
        · exact h1 hh
    · push_neg at hc
      refine Or.inr (Or.inr ⟨?_, ?_, (detect_mem_unchanged et recs entities r).mpr
        ⟨hr, ex, h, hc.1, hc.2⟩⟩)
      · intro hn
        obtain ⟨-, hf⟩ := (detect_mem_new et recs entities r).mp hn
        rw [h] at hf; cases hf
      · intro hch
        obtain ⟨-, ex', hf, hcond⟩ := (detect_mem_changed et recs entities r).mp hch
        rw [h] at hf
        cases hf
        rcases hcond with h1 | h1
        · exact hc.1 h1
        · exact h1 hc.2

/-- C6: over any sequence of `upsertRecord` / `markSynced` / `markFailed`
(and `markPending`) operations, a stored non-null `owlReference` never
becomes null again; and a single upsert supplying no reference preserves
the stored non-null reference while still updating hash, status, error
message and the `lastSyncedAt`/`updatedAt` timestamps (and keeping
`createdAt`). -/
theorem sticky_destination_reference :
    (∀ (ops : List LedgerOp) (recs : List SyncRecord) (now : Nat)
      (sid : String) (et : EntityType) (r : SyncRecord) (v : String),
      findRecord recs sid et = some r → r.owlReference = some v →
      ∃ r', findRecord (applyOps recs now ops) sid et = some r' ∧
        r'.owlReference ≠ none) ∧
    (∀ (recs : List SyncRecord) (sid : String) (et : EntityType)
      (h : String) (st : SyncStatus) (err : Option String) (now : Nat)
      (r : SyncRecord) (v : String),
      findRecord recs sid et = some r → r.owlReference = some v →
      ∃ r', findRecord (upsertRecord recs sid et h st none err now) sid et = some r' ∧
        r'.owlReference = some v ∧ r'.dataHash = h ∧ r'.syncStatus = st ∧
        r'.errorMessage = err ∧ r'.updatedAt = now ∧ r'.lastSyncedAt = now ∧
        r'.createdAt = r.createdAt) := by
  constructor
  · intro ops recs now sid et r v hf hv
    exact applyOps_preserves_ref ops recs now sid et r hf (by simp [hv])
  · intro recs sid et h st err now r v hf hv
    rw [findRecord_upsert_same, hf]
    exact ⟨updOf h st none err now r, rfl, by simp [updOf, hv]⟩

/-- Witness for C6 at a concrete ledger and operation sequence. -/
theorem sticky_destination_reference_witness :
    ∃ r', findRecord (applyOps
        [⟨1, "a", .client, "h0", .synced, some "ref", none, 0, 0, 0⟩] 5
        [.failedOp "a" EntityType.client "h1" "boom",
         .pendingOp "a" EntityType.client "h2"]) "a" .client = some r' ∧
      r'.owlReference ≠ none :=
  sticky_destination_reference.1
    [.failedOp "a" EntityType.client "h1" "boom",
     .pendingOp "a" EntityType.client "h2"]
    [⟨1, "a", .client, "h0", .synced, some "ref", none, 0, 0, 0⟩] 5
    "a" .client ⟨1, "a", .client, "h0", .synced, some "ref", none, 0, 0, 0⟩
    "ref" rfl rfl

/-- C7: a `dryRun=true` invocation returns a summary with empty results
and all four counts zero, performs no destination-adapter call (the call
log is empty), performs no per-entry ledger write (the `sync_records`
table is returned unchanged), and in ledger-backed mode its only
persistent effect is the run row, created in `running` status and
finalized once as `completed`; without the ledger even the run tables are
untouched. -/
theorem dry_run_purity (adapter : Adapter) (connect : Option String)
    (runId : String) (changes : DetectedChanges) (opts : SyncOptions)
    (records0 : List SyncRecord) (runs0 : List RunRow) (clock0 : Nat)
    (hdry : opts.dryRun = true) :
    (∃ s, (runSync adapter connect runId changes opts records0 runs0 clock0).outcome = .success s ∧
      s.results = [] ∧ s.counts = ⟨0, 0, 0, 0⟩) ∧
    (runSync adapter connect runId changes opts records0 runs0 clock0).calls = [] ∧
    (runSync adapter connect runId changes opts records0 runs0 clock0).records = records0 ∧
    (opts.useLedger = true →
      (runSync adapter connect runId changes opts records0 runs0 clock0).runs =
        completeRun (createRun runs0 runId opts.mode true (clock0 + 1)) runId
          opts.entities ⟨0, 0, 0, 0⟩ .completed (clock0 + 3)) ∧
    (opts.useLedger = false →
      (runSync adapter connect runId changes opts records0 runs0 clock0).runs = runs0) := by
  rw [runSync_dry adapter connect runId changes opts records0 runs0 clock0 hdry]
  refine ⟨⟨buildSummary runId clock0 [] (clock0 + 2), rfl, rfl, rfl⟩, rfl, rfl, ?_, ?_⟩
  · intro h
    rw [hdry, h]
    rfl
  · intro h
    rw [h]
    rfl

/-- Witness for C7: a concrete ledger-backed dry run over a non-empty
change set makes no adapter call and leaves the record table empty. -/
theorem dry_run_purity_witness :
    (runSync (fun _ _ _ _ => .thrown "boom") none "r1"
      ⟨⟨[⟨"c1", []⟩], [], []⟩, ⟨[], [], []⟩, ⟨[], [], []⟩⟩
      ⟨true, [.client], .automated, true⟩ [] [] 0).calls = [] ∧
    (runSync (fun _ _ _ _ => .thrown "boom") none "r1"
      ⟨⟨[⟨"c1", []⟩], [], []⟩, ⟨[], [], []⟩, ⟨[], [], []⟩⟩
      ⟨true, [.client], .automated, true⟩ [] [] 0).records = [] :=
  ⟨(dry_run_purity (fun _ _ _ _ => .thrown "boom") none "r1"
      ⟨⟨[⟨"c1", []⟩], [], []⟩, ⟨[], [], []⟩, ⟨[], [], []⟩⟩
      ⟨true, [.client], .automated, true⟩ [] [] 0 rfl).2.1,
   (dry_run_purity (fun _ _ _ _ => .thrown "boom") none "r1"
      ⟨⟨[⟨"c1", []⟩], [], []⟩, ⟨[], [], []⟩, ⟨[], [], []⟩⟩
      ⟨true, [.client], .automated, true⟩ [] [] 0 rfl).2.2.1⟩

/-- C10: in ledger-backed mode, an item whose adapter result has action
`skipped` is recorded exactly as `created`/`updated` items are: the ledger
entry is marked `synced` with the item's current fingerprint and any
returned destination reference, so an identical record is classified
`unchanged` on the next run and only a genuine content change (a
different fingerprint) is classified `changed` again. -/
theorem skipped_updates_ledger_hash (recs : List SyncRecord) (item : SrcRecord)
    (r : SyncResult) (now : Nat) (hact : r.action = .skipped) :
    recordResult r item recs now =
      markSynced recs item.sourceId r.entity (hashEntity item.fields) r.owlReference now ∧
    (∀ ra : SyncResult, ra.action = .created ∨ ra.action = .updated →
      recordResult ra item recs now =
        markSynced recs item.sourceId ra.entity (hashEntity item.fields) ra.owlReference now) ∧
    (∃ e, findRecord (recordResult r item recs now) item.sourceId r.entity = some e ∧
      e.syncStatus = .synced ∧ e.dataHash = hashEntity item.fields ∧
      (∀ v, r.owlReference = some v → e.owlReference = some v)) ∧
    (∀ item2 : SrcRecord, item2.sourceId = item.sourceId →
      detectChanges [item2] r.entity (recordResult r item recs now) =
        (if hashEntity item2.fields = hashEntity item.fields
          then ⟨[], [], [item2]⟩ else ⟨[], [item2], []⟩)) := by
  have hrr : recordResult r item recs now =
      markSynced recs item.sourceId r.entity (hashEntity item.fields) r.owlReference now := by
    unfold recordResult
    rw [hact]
  have hfind : ∃ e, findRecord (recordResult r item recs now) item.sourceId r.entity = some e ∧
      e.syncStatus = .synced ∧ e.dataHash = hashEntity item.fields ∧
      (∀ v, r.owlReference = some v → e.owlReference = some v) := by
    rw [hrr]
    unfold markSynced
    rw [findRecord_upsert_same]
    cases hfr : findRecord recs item.sourceId r.entity with
    | none =>
      refine ⟨_, rfl, ?_⟩
      simp
    | some old =>
      refine ⟨_, rfl, ?_⟩
      refine ⟨by simp [updOf], by simp [updOf], ?_⟩
      intro v hv
      simp [updOf, hv]
  refine ⟨hrr, ?_, hfind, ?_⟩
  · intro ra hra
    unfold recordResult
    rcases hra with h1 | h1 <;> rw [h1]
  · intro item2 hsid
    obtain ⟨e, he, hsy, hdh, -⟩ := hfind
    rw [detectChanges, detectChanges]
    rw [hsid, he]
    by_cases hh : hashEntity item2.fields = hashEntity item.fields
    · rw [if_pos hh]
      have hcond : ¬(e.dataHash ≠ hashEntity item2.fields ∨ e.syncStatus = SyncStatus.pending) := by
        simp [hdh, hsy, hh]
      simp [hcond]
    · rw [if_neg hh]
      have hcond : (e.dataHash ≠ hashEntity item2.fields ∨ e.syncStatus = SyncStatus.pending) :=
        Or.inl (by rw [hdh]; exact fun hc => hh hc.symm)
      simp [hcond]

/-- Witness for C10: a concrete skipped result recorded into an empty
ledger makes the identical record classify as `unchanged`. -/
theorem skipped_updates_ledger_hash_witness :
    detectChanges [⟨"s1", []⟩] .client
        (recordResult ⟨.client, "s1", .skipped, some "owl9", none, 7⟩ ⟨"s1", []⟩ [] 7) =
      ⟨[], [], [⟨"s1", []⟩]⟩ := by
  have h := skipped_updates_ledger_hash [] ⟨"s1", []⟩
    ⟨.client, "s1", .skipped, some "owl9", none, 7⟩ 7 rfl
  have h4 := h.2.2.2 ⟨"s1", []⟩ rfl
  rw [if_pos rfl] at h4
  exact h4

/-- C4: an item whose adapter call throws or returns a failed result is
recorded as a `Failed` outcome carrying its error message (and, in
ledger-backed mode, a `failed` ledger write for that item); the loop
continues through all remaining items (every planned item produces
exactly one call and one result, in order); the run still finalizes its
run row as `completed`; and the trigger response status is
`completed_with_errors` exactly when `counts.failed > 0` and `completed`
otherwise. -/
theorem item_failure_isolation (adapter : Adapter) (runId : String)
    (changes : DetectedChanges) (opts : SyncOptions)
    (records0 : List SyncRecord) (runs0 : List RunRow) (clock0 : Nat)
    (hdry : opts.dryRun = false) (hco : AdapterCoherent adapter) :
    ∃ s, (runSync adapter none runId changes opts records0 runs0 clock0).outcome = .success s ∧
      s.results = (runSync adapter none runId changes opts records0 runs0 clock0).calls.map
        (fun c => c.result) ∧
      (runSync adapter none runId changes opts records0 runs0 clock0).calls.map
        (fun c => c.item) =
        (if opts.entities.contains .client then
          clientItems changes.clients opts.useLedger records0 else []) ++
        (if opts.entities.contains .appointment then
          changes.appointments.new ++ changes.appointments.changed else []) ++
        (if opts.entities.contains .sessionNote then
          changes.sessionNotes.new ++ changes.sessionNotes.changed else []) ∧
      (∀ c ∈ (runSync adapter none runId changes opts records0 runs0 clock0).calls,
        (∀ msg, c.outcome = .thrown msg →
          c.result.entity = c.et ∧ c.result.sourceId = c.item.sourceId ∧
          c.result.action = .failed ∧ c.result.error = some msg) ∧
        (∀ r, c.outcome = .ok r → c.result = r) ∧
        (opts.useLedger = true → ∀ msg,
          (c.outcome = .thrown msg ∨
            (∃ r, c.outcome = .ok r ∧ r.action = .failed ∧ r.error = some msg)) →
          ∃ e, findRecord c.ledgerAfter c.item.sourceId c.et = some e ∧
            e.syncStatus = .failed ∧ e.errorMessage = some msg)) ∧
      (opts.useLedger = true →
        (∃ row ∈ (runSync adapter none runId changes opts records0 runs0 clock0).runs,
          row.runId = runId) ∧
        (∀ row ∈ (runSync adapter none runId changes opts records0 runs0 clock0).runs,
          row.runId = runId → row.status = .completed ∧ row.counts = some s.counts)) ∧
      ((runRouteStatus s = "completed_with_errors") ↔ 0 < s.counts.failed) ∧
      ((runRouteStatus s = "completed") ↔ s.counts.failed = 0) := by
  obtain ⟨ncC, ncA, ncN, s, hout, hcalls, hres, hcounts, hmC, hmA, hmN, hkC, hkA, hkN, hchain, tr, hruns⟩ :=
    runSync_spec adapter runId changes opts records0 runs0 clock0 hdry
  have hallok : ∀ c ∈ (runSync adapter none runId changes opts records0 runs0 clock0).calls,
      CallOk adapter opts.useLedger c.et c := by
    intro c hc
    rw [hcalls] at hc
    rcases List.mem_append.mp hc with hc' | hcN'
    · rcases List.mem_append.mp hc' with hcC' | hcA'
      · have := hkC c hcC'
        rw [this.1]
        exact this
      · have := hkA c hcA'
        rw [this.1]
        exact this
    · have := hkN c hcN'
      rw [this.1]
      exact this
  refine ⟨s, hout, ?_, ?_, ?_, ?_, runRouteStatus_iff s⟩
  · rw [hres, hcalls]
  · rw [hcalls]
    simp [hmC, hmA, hmN, List.map_append]
  · intro c hc
    obtain ⟨-, t, hat, hoadapter, hok, hthrown⟩ := hallok c hc
    refine ⟨?_, fun r hr => (hok r hr).1, ?_⟩
    · intro msg hmsg
      rw [(hthrown msg hmsg).1]
      exact ⟨rfl, rfl, rfl, rfl⟩
    · intro hu msg hcase
      rcases hcase with hmsg | ⟨r, hr, hract, hrerr⟩
      · have hafter := (hthrown msg hmsg).2
        rw [hu] at hafter
        rw [hafter, if_pos rfl]
        obtain ⟨e, he, h1, h2, h3⟩ := findRecord_markFailed_self c.ledgerAtCall
          c.item.sourceId c.et (hashEntity c.item.fields) msg (t + 1)
        exact ⟨e, he, h1, h2⟩
      · have hafter := (hok r hr).2
        rw [hu] at hafter
        rw [hafter, if_pos rfl]
        have hent : r.entity = c.et := by
          have := hco c.et c.item c.ledgerAtCall t r (by rw [← hoadapter]; exact hr)
          exact this.1
        unfold recordResult
        rw [hract, hent]
        obtain ⟨e, he, h1, h2, h3⟩ := findRecord_markFailed_self c.ledgerAtCall
          c.item.sourceId c.et (hashEntity c.item.fields) (r.error.getD "Unknown error") (t + 1)
        rw [hrerr] at h2
        exact ⟨e, he, h1, by simpa using h2⟩
  · intro hu
    rw [hu] at hruns
    rw [hruns, if_pos rfl]
    constructor
    · unfold completeRun createRun
      refine ⟨_, List.mem_map_of_mem _ (List.mem_append_right runs0
        (List.mem_singleton_self _)), ?_⟩
      simp
    · intro row hrow hrid
      unfold completeRun createRun at hrow
      obtain ⟨x, hx, hfx⟩ := List.mem_map.mp hrow
      by_cases hb : (x.runId == runId) = true
      · rw [if_pos hb] at hfx
        rw [← hfx]
        exact ⟨rfl, rfl⟩
      · rw [if_neg hb] at hfx
        rw [← hfx] at hrid
        exact absurd (by simp [hrid]) hb

/-- Witness for C4: three clients, the adapter throws for the second;
the run completes with `counts.failed = 1`, all three items processed,
and the trigger surfaces `completed_with_errors`. -/
theorem item_failure_isolation_witness :
    ∃ s, (runSync
        (fun et r _ t => if r.sourceId == "c2" then AdapterOutcome.thrown "boom"
          else .ok ⟨et, r.sourceId, .created, some "ref", none, t⟩)
        none "r1"
        ⟨⟨[⟨"c1", []⟩, ⟨"c2", []⟩, ⟨"c3", []⟩], [], []⟩, ⟨[], [], []⟩, ⟨[], [], []⟩⟩
        ⟨false, [.client], .automated, false⟩ [] [] 0).outcome = RunOutcome.success s ∧
      runRouteStatus s = "completed_with_errors" ∧ s.counts.failed = 1 ∧
      s.results.length = 3 := by
  obtain ⟨s, h1, hres, -, -, -, hiff, -⟩ :=
    item_failure_isolation
      (fun et r _ t => if r.sourceId == "c2" then AdapterOutcome.thrown "boom"
        else .ok ⟨et, r.sourceId, .created, some "ref", none, t⟩)
      "r1"
      ⟨⟨[⟨"c1", []⟩, ⟨"c2", []⟩, ⟨"c3", []⟩], [], []⟩, ⟨[], [], []⟩, ⟨[], [], []⟩⟩
      ⟨false, [.client], .automated, false⟩ [] [] 0 rfl
      (by
        intro et r recs t res h
        dsimp only at h
        by_cases hs : (r.sourceId == "c2") = true
        · rw [if_pos hs] at h
          cases h
        · rw [if_neg hs] at h
          cases h
          exact ⟨rfl, rfl⟩)
  have heval : (runSync
      (fun et r _ t => if r.sourceId == "c2" then AdapterOutcome.thrown "boom"
        else .ok ⟨et, r.sourceId, .created, some "ref", none, t⟩)
      none "r1"
      ⟨⟨[⟨"c1", []⟩, ⟨"c2", []⟩, ⟨"c3", []⟩], [], []⟩, ⟨[], [], []⟩, ⟨[], [], []⟩⟩
      ⟨false, [.client], .automated, false⟩ [] [] 0).outcome = RunOutcome.success
        ⟨"r1", 0, 8,
          [⟨.client, "c1", .created, some "ref", none, 2⟩,
           ⟨.client, "c2", .failed, none, some "boom", 4⟩,
           ⟨.client, "c3", .created, some "ref", none, 6⟩],
          ⟨2, 0, 0, 1⟩⟩ := rfl
  rw [heval] at h1
  injection h1 with h2
  subst h2
  exact ⟨_, heval, rfl, rfl, rfl⟩

/-- C3: in every ledger-backed non-dry run, the ledger state handed to
the destination adapter for an item is exactly `markPending` applied to
the state just before the item (so `markPending` is invoked immediately
before the adapter call), and at that moment the item's ledger entry is
durably `pending` with the item's hash — an interruption between
`markPending` and the terminal `markSynced`/`markFailed` leaves the entry
in `pending`.  `markPending` itself is modelled from the spec (its body
is not among the present sources; only its import and call sites are). -/
theorem mark_pending_before_adapter_call (adapter : Adapter) (runId : String)
    (changes : DetectedChanges) (opts : SyncOptions)
    (records0 : List SyncRecord) (runs0 : List RunRow) (clock0 : Nat)
    (hdry : opts.dryRun = false) (hul : opts.useLedger = true) :
    ∀ c ∈ (runSync adapter none runId changes opts records0 runs0 clock0).calls,
      ∃ t, c.ledgerAtCall =
          markPending c.ledgerBefore c.item.sourceId c.et (hashEntity c.item.fields) t ∧
        c.outcome = adapter c.et c.item c.ledgerAtCall t ∧
        ∃ e, findRecord c.ledgerAtCall c.item.sourceId c.et = some e ∧
          e.syncStatus = .pending ∧ e.dataHash = hashEntity c.item.fields := by
  obtain ⟨ncC, ncA, ncN, s, hout, hcalls, hres, hcounts, hmC, hmA, hmN, hkC, hkA, hkN,
    hchain, tr, hruns⟩ := runSync_spec adapter runId changes opts records0 runs0 clock0 hdry
  have hallok : ∀ c ∈ (runSync adapter none runId changes opts records0 runs0 clock0).calls,
      CallOk adapter opts.useLedger c.et c := by
    intro c hc
    rw [hcalls] at hc
    rcases List.mem_append.mp hc with hc' | hcN'
    · rcases List.mem_append.mp hc' with hcC' | hcA'
      · have := hkC c hcC'
        rw [this.1]
        exact this
      · have := hkA c hcA'
        rw [this.1]
        exact this
    · have := hkN c hcN'
      rw [this.1]
      exact this
  intro c hc
  obtain ⟨-, t, hat, hoad, -, -⟩ := hallok c hc
  rw [hul, if_pos rfl] at hat
  refine ⟨t, hat, hoad, ?_⟩
  rw [hat]
  exact findRecord_markPending_self c.ledgerBefore c.item.sourceId c.et
    (hashEntity c.item.fields) t

/-- Witness for C3 at a concrete one-client ledger-backed run. -/
theorem mark_pending_before_adapter_call_witness :
    ∃ c, c ∈ (runSync (fun et r _ t => .ok ⟨et, r.sourceId, .created, some "w", none, t⟩)
        none "r1" ⟨⟨[⟨"c1", []⟩], [], []⟩, ⟨[], [], []⟩, ⟨[], [], []⟩⟩
        ⟨false, [.client], .automated, true⟩ [] [] 0).calls ∧
      ∃ t, c.ledgerAtCall =
          markPending c.ledgerBefore c.item.sourceId c.et (hashEntity c.item.fields) t ∧
        ∃ e, findRecord c.ledgerAtCall c.item.sourceId c.et = some e ∧
          e.syncStatus = .pending ∧ e.dataHash = hashEntity c.item.fields := by
  have h := mark_pending_before_adapter_call
    (fun et r _ t => .ok ⟨et, r.sourceId, .created, some "w", none, t⟩) "r1"
    ⟨⟨[⟨"c1", []⟩], [], []⟩, ⟨[], [], []⟩, ⟨[], [], []⟩⟩
    ⟨false, [.client], .automated, true⟩ [] [] 0 rfl rfl
  have hlen : (runSync (fun et r _ t => .ok ⟨et, r.sourceId, .created, some "w", none, t⟩)
      none "r1" ⟨⟨[⟨"c1", []⟩], [], []⟩, ⟨[], [], []⟩, ⟨[], [], []⟩⟩
      ⟨false, [.client], .automated, true⟩ [] [] 0).calls.length = 1 := rfl
  cases hcalls : (runSync (fun et r _ t => .ok ⟨et, r.sourceId, .created, some "w", none, t⟩)
      none "r1" ⟨⟨[⟨"c1", []⟩], [], []⟩, ⟨[], [], []⟩, ⟨[], [], []⟩⟩
      ⟨false, [.client], .automated, true⟩ [] [] 0).calls with
  | nil => rw [hcalls] at hlen; cases hlen
  | cons c cs =>
    refine ⟨c, List.mem_cons_self c cs, ?_⟩
    obtain ⟨t, h1, h2, h3⟩ := h c (by rw [hcalls]; exact List.mem_cons_self c cs)
    exact ⟨t, h1, h3⟩

/-- C1 (amended): for every ledger-backed run over source data in which a
record R was already successfully synced — its ledger entry `synced` with
`dataHash` equal to R's fingerprint, and for clients a truthy (non-null
and non-empty) `destinationReference` — the run produces no result at all
for R (hence `created = 0` and `updated = 0` for R) and leaves R's ledger
entry entirely unchanged.  The amendment restricts the claim's "non-null
destinationReference" to "non-null and non-empty": the code's backfill
check `!record?.owlReference` treats an empty-string reference like a
missing one (see the counterexample). -/
theorem trigger_idempotency (adapter : Adapter) (connect : Option String)
    (runId : String) (data : FetchedData) (opts : SyncOptions)
    (records0 : List SyncRecord) (runs0 : List RunRow) (clock0 : Nat)
    (R : SrcRecord) (et : EntityType) (entry : SyncRecord)
    (hco : AdapterCoherent adapter)
    (hul : opts.useLedger = true)
    (hmem : R ∈ dataList data et)
    (huniq : ∀ r' ∈ dataList data et, r'.sourceId = R.sourceId → r' = R)
    (hfind : findRecord records0 R.sourceId et = some entry)
    (hsy : entry.syncStatus = .synced)
    (hhash : entry.dataHash = hashEntity R.fields)
    (href : et = .client → refMissing entry.owlReference = false) :
    (∀ res ∈ resultsOf (runSync adapter connect runId (detectAllChanges data records0)
        opts records0 runs0 clock0).outcome,
      ¬(res.sourceId = R.sourceId ∧ res.entity = et)) ∧
    findRecord (runSync adapter connect runId (detectAllChanges data records0)
      opts records0 runs0 clock0).records R.sourceId et = some entry := by
  by_cases hd : opts.dryRun = true
  · rw [runSync_dry adapter connect runId (detectAllChanges data records0) opts
      records0 runs0 clock0 hd]
    refine ⟨?_, hfind⟩
    intro res hr
    simp [resultsOf, buildSummary] at hr
  · have hdf : opts.dryRun = false := by revert hd; cases opts.dryRun <;> simp
    cases connect with
    | some msg =>
      rw [runSync_connect_fail adapter msg runId (detectAllChanges data records0) opts
        records0 runs0 clock0 hdf]
      refine ⟨?_, hfind⟩
      intro res hr
      simp [resultsOf] at hr
    | none =>
      obtain ⟨ncC, ncA, ncN, s, hout, hcalls, hres, hcounts, hmC, hmA, hmN,
        hkC, hkA, hkN, hchain, tr, hruns⟩ :=
        runSync_spec adapter runId (detectAllChanges data records0) opts
          records0 runs0 clock0 hdf
      -- R is classified `unchanged`: it is in neither `new` nor `changed`.
      have hRnew : R ∉ (detectChanges (dataList data et) et records0).new := by
        intro hR
        obtain ⟨-, hnone⟩ := (detect_mem_new et records0 (dataList data et) R).mp hR
        rw [hfind] at hnone
        cases hnone
      have hRch : R ∉ (detectChanges (dataList data et) et records0).changed := by
        intro hR
        obtain ⟨-, ex, hf, hcond⟩ := (detect_mem_changed et records0 (dataList data et) R).mp hR
        rw [hfind] at hf
        injection hf with hf'
        rcases hcond with hp | hh
        · rw [← hf'] at hp
          rw [hsy] at hp
          cases hp
        · rw [← hf'] at hh
          exact hh hhash
      -- No item of R's own phase carries R's sourceId.
      have hnoC : et = .client →
          ∀ item ∈ clientItems (detectAllChanges data records0).clients
            opts.useLedger records0, item.sourceId ≠ R.sourceId := by
        intro het item hitem heq
        subst het
        have hlist : (detectAllChanges data records0).clients =
            detectChanges (dataList data .client) .client records0 := rfl
        rw [hlist] at hitem
        unfold clientItems at hitem
        rcases List.mem_append.mp hitem with h1 | hflt
        · rcases List.mem_append.mp h1 with hn | hc
          · have hin := ((detect_mem_new _ _ _ _).mp hn).1
            have : item = R := huniq item hin heq
            subst this
            exact hRnew hn
          · have hin := ((detect_mem_changed _ _ _ _).mp hc).1
            have : item = R := huniq item hin heq
            subst this
            exact hRch hc
        · rw [hul, if_pos rfl] at hflt
          obtain ⟨hu, hcond⟩ := List.mem_filter.mp hflt
          have hin := ((detect_mem_unchanged _ _ _ _).mp hu).1
          have : item = R := huniq item hin heq
          subst this
          simp only [hfind] at hcond
          rw [href rfl] at hcond
          cases hcond
      have hnoA : et = .appointment →
          ∀ item ∈ (detectAllChanges data records0).appointments.new ++
            (detectAllChanges data records0).appointments.changed,
            item.sourceId ≠ R.sourceId := by
        intro het item hitem heq
        subst het
        rcases List.mem_append.mp hitem with hn | hc
        · have hin := ((detect_mem_new _ _ _ _).mp hn).1
          have : item = R := huniq item hin heq
          subst this
          exact hRnew hn
        · have hin := ((detect_mem_changed _ _ _ _).mp hc).1
          have : item = R := huniq item hin heq
          subst this
          exact hRch hc
      have hnoN : et = .sessionNote →
          ∀ item ∈ (detectAllChanges data records0).sessionNotes.new ++
            (detectAllChanges data records0).sessionNotes.changed,
            item.sourceId ≠ R.sourceId := by
        intro het item hitem heq
        subst het
        rcases List.mem_append.mp hitem with hn | hc
        · have hin := ((detect_mem_new _ _ _ _).mp hn).1
          have : item = R := huniq item hin heq
          subst this
          exact hRnew hn
        · have hin := ((detect_mem_changed _ _ _ _).mp hc).1
          have : item = R := huniq item hin heq
          subst this
          exact hRch hc
      -- Keys of all calls avoid R's key.
      have hkey : ∀ c ∈ ncC ++ ncA ++ ncN, ¬(R.sourceId = c.item.sourceId ∧ et = c.et) := by
        rintro c hc ⟨h1, h2⟩
        rcases List.mem_append.mp hc with hc' | hcN'
        · rcases List.mem_append.mp hc' with hcC' | hcA'
          · have hetc := (hkC c hcC').1
            have hitem : c.item ∈ ncC.map (fun c => c.item) :=
              List.mem_map_of_mem _ hcC'
            rw [hmC] at hitem
            by_cases hcont : opts.entities.contains EntityType.client = true
            · rw [if_pos hcont] at hitem
              exact hnoC (h2.trans hetc) c.item hitem h1.symm
            · rw [if_neg hcont] at hitem
              cases hitem
          · have hetc := (hkA c hcA').1
            have hitem : c.item ∈ ncA.map (fun c => c.item) :=
              List.mem_map_of_mem _ hcA'
            rw [hmA] at hitem
            by_cases hcont : opts.entities.contains EntityType.appointment = true
            · rw [if_pos hcont] at hitem
              exact hnoA (h2.trans hetc) c.item hitem h1.symm
            · rw [if_neg hcont] at hitem
              cases hitem
        · have hetc := (hkN c hcN').1
          have hitem : c.item ∈ ncN.map (fun c => c.item) :=
            List.mem_map_of_mem _ hcN'
          rw [hmN] at hitem
          by_cases hcont : opts.entities.contains EntityType.sessionNote = true
          · rw [if_pos hcont] at hitem
            exact hnoN (h2.trans hetc) c.item hitem h1.symm
          · rw [if_neg hcont] at hitem
            cases hitem
      have hallok : ∀ c ∈ ncC ++ ncA ++ ncN, CallOk adapter opts.useLedger c.et c := by
        intro c hc
        rcases List.mem_append.mp hc with hc' | hcN'
        · rcases List.mem_append.mp hc' with hcC' | hcA'
          · have := hkC c hcC'
            rw [this.1]
            exact this
          · have := hkA c hcA'
            rw [this.1]
            exact this
        · have := hkN c hcN'
          rw [this.1]
          exact this
      constructor
      · rw [hout]
        intro res hr
        rintro ⟨hs1, hs2⟩
        simp only [resultsOf] at hr
        rw [hres] at hr
        obtain ⟨c, hcmem, hceq⟩ := List.mem_map.mp hr
        have hfields := callOk_result_fields adapter opts.useLedger c.et c
          (hallok c hcmem) hco
        rw [hceq] at hfields
        exact hkey c hcmem ⟨hs1.symm.trans hfields.2, hs2.symm.trans hfields.1⟩
      · have := (chain_preserves adapter opts.useLedger hco R.sourceId et
          (ncC ++ ncA ++ ncN) records0
          (runSync adapter none runId (detectAllChanges data records0) opts
            records0 runs0 clock0).records hchain hallok hkey).1
        rw [this]
        exact hfind

/-- Witness for C1 at a concrete second run over one already-synced
client with reference "ow". -/
theorem trigger_idempotency_witness :
    (∀ res ∈ resultsOf (runSync
        (fun et r _ t => .ok ⟨et, r.sourceId, .created, some "w", none, t⟩) none "r2"
        (detectAllChanges ⟨[⟨"c1", []⟩], [], []⟩
          [⟨1, "c1", .client, hashEntity [], .synced, some "ow", none, 0, 0, 0⟩])
        ⟨false, [.client], .automated, true⟩
        [⟨1, "c1", .client, hashEntity [], .synced, some "ow", none, 0, 0, 0⟩] [] 0).outcome,
      ¬(res.sourceId = "c1" ∧ res.entity = .client)) ∧
    findRecord (runSync
        (fun et r _ t => .ok ⟨et, r.sourceId, .created, some "w", none, t⟩) none "r2"
        (detectAllChanges ⟨[⟨"c1", []⟩], [], []⟩
          [⟨1, "c1", .client, hashEntity [], .synced, some "ow", none, 0, 0, 0⟩])
        ⟨false, [.client], .automated, true⟩
        [⟨1, "c1", .client, hashEntity [], .synced, some "ow", none, 0, 0, 0⟩] [] 0).records
      "c1" .client =
      some ⟨1, "c1", .client, hashEntity [], .synced, some "ow", none, 0, 0, 0⟩ :=
  trigger_idempotency
    (fun et r _ t => .ok ⟨et, r.sourceId, .created, some "w", none, t⟩) none "r2"
    ⟨[⟨"c1", []⟩], [], []⟩ ⟨false, [.client], .automated, true⟩
    [⟨1, "c1", .client, hashEntity [], .synced, some "ow", none, 0, 0, 0⟩] [] 0
    ⟨"c1", []⟩ .client ⟨1, "c1", .client, hashEntity [], .synced, some "ow", none, 0, 0, 0⟩
    (by intro et r recs t res h; dsimp only at h; cases h; exact ⟨rfl, rfl⟩)
    rfl (List.mem_singleton_self _)
    (by intro r' hr' _; exact List.mem_singleton.mp hr')
    rfl rfl rfl (fun _ => rfl)

/-- Counterexample to C1 as stated: a client ledger entry that is
`synced`, hash-matching, and has a NON-NULL destinationReference — the
empty string — satisfies the claim's hypotheses, yet the second run
re-processes the client (the backfill check uses JS truthiness) and, with
a destination that reports creation, produces a `created` result for R. -/
theorem trigger_idempotency_counterexample :
    (findRecord [⟨1, "c1", .client, hashEntity [], .synced, some "", none, 0, 0, 0⟩]
        "c1" .client =
      some ⟨1, "c1", .client, hashEntity [], .synced, some "", none, 0, 0, 0⟩ ∧
      SyncStatus.synced = SyncStatus.synced ∧
      (some "" : Option String) ≠ none) ∧
    ∃ res ∈ resultsOf (runSync
        (fun et r _ t => .ok ⟨et, r.sourceId, .created, some "w", none, t⟩) none "r2"
        (detectAllChanges ⟨[⟨"c1", []⟩], [], []⟩
          [⟨1, "c1", .client, hashEntity [], .synced, some "", none, 0, 0, 0⟩])
        ⟨false, [.client], .automated, true⟩
        [⟨1, "c1", .client, hashEntity [], .synced, some "", none, 0, 0, 0⟩] [] 0).outcome,
      res.sourceId = "c1" ∧ res.entity = .client ∧ res.action = .created := by
  refine ⟨⟨rfl, rfl, by simp⟩, ⟨.client, "c1", .created, some "w", none, 2⟩, ?_, rfl, rfl, rfl⟩
  rw [show resultsOf (runSync
      (fun et r _ t => .ok ⟨et, r.sourceId, .created, some "w", none, t⟩) none "r2"
      (detectAllChanges ⟨[⟨"c1", []⟩], [], []⟩
        [⟨1, "c1", .client, hashEntity [], .synced, some "", none, 0, 0, 0⟩])
      ⟨false, [.client], .automated, true⟩
      [⟨1, "c1", .client, hashEntity [], .synced, some "", none, 0, 0, 0⟩] [] 0).outcome =
    [⟨.client, "c1", .created, some "w", none, 2⟩] from rfl]
  exact List.mem_singleton_self _


theorem pushSessionNote_fields (ex : Bool) (ce : Option String)
    (note : SrcRecord) (recs : List SyncRecord) (t : Nat) :
    (pushSessionNote ex ce note recs t).entity = .sessionNote ∧
    (pushSessionNote ex ce note recs t).sourceId = note.sourceId := by
  unfold pushSessionNote
  cases ex with
  | true => exact ⟨rfl, rfl⟩
  | false =>
    rw [if_neg (by simp)]
    cases resolveOwlClientId note recs with
    | none => exact ⟨rfl, rfl⟩
    | some v =>
      cases ce with
      | none => exact ⟨rfl, rfl⟩
      | some msg => exact ⟨rfl, rfl⟩

theorem chain_writes_ref (adapter : Adapter) (hco : AdapterCoherent adapter) :
    ∀ (nc : List CallRecord) (recs final : List SyncRecord),
      ChainFrom recs nc final →
      (∀ c ∈ nc, CallOk adapter true .client c) →
      List.Pairwise (fun a b : CallRecord => a.item.sourceId ≠ b.item.sourceId) nc →
      ∀ cc ∈ nc, ∀ v, cc.result.action ≠ .failed → cc.result.owlReference = some v →
        ∃ e, findRecord final cc.item.sourceId .client = some e ∧
          e.owlReference = some v := by
  intro nc
  induction nc with
  | nil => intro recs final _ _ _ cc hcc; cases hcc
  | cons c cs ih =>
    intro recs final hch hok hpw cc hcc v hact href2
    obtain ⟨hb, hrest⟩ := hch
    rcases List.mem_cons.mp hcc with rfl | hcc'
    · -- cc is the head: its own step writes the reference, the tail preserves it
      obtain ⟨hetc, t, hat, hoad, hokk, hthr⟩ := hok cc (List.mem_cons_self cc cs)
      cases ho : cc.outcome with
      | thrown msg =>
        obtain ⟨hr1, -⟩ := hthr msg ho
        rw [hr1] at hact
        exact absurd rfl hact
      | ok r =>
        obtain ⟨hr1, hafter⟩ := hokk r ho
        rw [if_pos rfl] at hafter
        have hent : r.entity = .client :=
          (hco .client cc.item cc.ledgerAtCall t r (hoad.symm.trans ho)).1
        have hwrite : ∃ e, findRecord cc.ledgerAfter cc.item.sourceId .client = some e ∧
            e.owlReference = some v := by
          rw [hafter]
          unfold recordResult
          rw [hr1] at hact href2
          cases hract : r.action with
          | failed => exact absurd hract hact
          | created =>
            simp only [hract]
            rw [← hent]
            unfold markSynced
            rw [findRecord_upsert_same]
            cases findRecord cc.ledgerAtCall cc.item.sourceId r.entity with
            | none => exact ⟨_, rfl, by simp [href2]⟩
            | some old => exact ⟨_, rfl, by simp [updOf, href2]⟩
          | updated =>
            simp only [hract]
            rw [← hent]
            unfold markSynced
            rw [findRecord_upsert_same]
            cases findRecord cc.ledgerAtCall cc.item.sourceId r.entity with
            | none => exact ⟨_, rfl, by simp [href2]⟩
            | some old => exact ⟨_, rfl, by simp [updOf, href2]⟩
          | skipped =>
            simp only [hract]
            rw [← hent]
            unfold markSynced
            rw [findRecord_upsert_same]
            cases findRecord cc.ledgerAtCall cc.item.sourceId r.entity with
            | none => exact ⟨_, rfl, by simp [href2]⟩
            | some old => exact ⟨_, rfl, by simp [updOf, href2]⟩
        obtain ⟨e, he, hev⟩ := hwrite
        have hpres := (chain_preserves adapter true hco cc.item.sourceId .client cs
          cc.ledgerAfter final hrest
          (fun x hx => by
            have := hok x (List.mem_cons_of_mem cc hx)
            rw [(this).1]
            exact this)
          (fun x hx => by
            rintro ⟨h1, -⟩
            exact (List.pairwise_cons.mp hpw).1 x hx h1)).1
        rw [hpres, he]
        exact ⟨e, rfl, hev⟩
    · exact ih c.ledgerAfter final hrest
        (fun x hx => hok x (List.mem_cons_of_mem c hx))
        (List.pairwise_cons.mp hpw).2 cc hcc' v hact href2



/-- C5 (amended): in every ledger-backed run selecting both clients and
session notes, all client calls precede all session-note calls (with
appointment calls between); every session note's result is
`pushSessionNote` evaluated against the ledger state at its call, so a
note that is NOT already present in the destination resolves its owning
client's reference from the ledger entry for `(note.clientId, client)`
and fails that single item when the reference cannot be resolved; and
for every client item that succeeded with a reference, that reference is
present in the ledger at the moment of every session-note call.  The
amendment restricts the resolution/failure sentence to notes not already
present downstream: a note that already exists is skipped without
resolving the reference (see the counterexample). -/
theorem dependency_ordering (adapter : Adapter) (existsOf : SrcRecord → Bool)
    (createErrOf : SrcRecord → Option String) (runId : String)
    (changes : DetectedChanges) (opts : SyncOptions)
    (records0 : List SyncRecord) (runs0 : List RunRow) (clock0 : Nat)
    (hdry : opts.dryRun = false) (hul : opts.useLedger = true)
    (hco : AdapterCoherent adapter)
    (hnote : ∀ (r : SrcRecord) (recs : List SyncRecord) (t : Nat),
      adapter .sessionNote r recs t = .ok (pushSessionNote (existsOf r) (createErrOf r) r recs t))
    (hCuniq : List.Pairwise (fun a b : SrcRecord => a.sourceId ≠ b.sourceId)
      (clientItems changes.clients opts.useLedger records0)) :
    ∃ ncC ncA ncN : List CallRecord,
      (runSync adapter none runId changes opts records0 runs0 clock0).calls =
        ncC ++ ncA ++ ncN ∧
      (∀ c ∈ ncC, c.et = .client) ∧ (∀ c ∈ ncA, c.et = .appointment) ∧
      (∀ c ∈ ncN, c.et = .sessionNote) ∧
      (∀ nc ∈ ncN, ∃ t, nc.result =
        pushSessionNote (existsOf nc.item) (createErrOf nc.item) nc.item nc.ledgerAtCall t) ∧
      (∀ nc ∈ ncN, existsOf nc.item = false →
        resolveOwlClientId nc.item nc.ledgerAtCall = none →
        nc.result.action = .failed ∧
        nc.result.error = some "Owl client ID not found — sync clients first") ∧
      (∀ cc ∈ ncC, ∀ v, cc.result.action ≠ .failed → cc.result.owlReference = some v →
        ∀ nc ∈ ncN, ∃ e, findRecord nc.ledgerAtCall cc.item.sourceId .client = some e ∧
          e.owlReference = some v) := by
  obtain ⟨ncC, ncA, ncN, s, hout, hcalls, hres, hcounts, hmC, hmA, hmN,
    hkC, hkA, hkN, hchain, tr, hruns⟩ :=
    runSync_spec adapter runId changes opts records0 runs0 clock0 hdry
  rw [hul] at hkC hkA hkN
  have hnoteRes : ∀ nc ∈ ncN, ∃ t, nc.result =
      pushSessionNote (existsOf nc.item) (createErrOf nc.item) nc.item nc.ledgerAtCall t := by
    intro nc hnc
    obtain ⟨-, t, hat, hoad, hokk, -⟩ := hkN nc hnc
    exact ⟨t, (hokk _ (hoad.trans (hnote nc.item nc.ledgerAtCall t))).1⟩
  refine ⟨ncC, ncA, ncN, hcalls, fun c hc => (hkC c hc).1, fun c hc => (hkA c hc).1,
    fun c hc => (hkN c hc).1, hnoteRes, ?_, ?_⟩
  · intro nc hnc hex hresolve
    obtain ⟨t, hrw⟩ := hnoteRes nc hnc
    rw [hrw]
    unfold pushSessionNote
    rw [hex]
    rw [if_neg (by simp)]
    rw [hresolve]
    exact ⟨rfl, rfl⟩
  · intro cc hcc v hact href2 nc hnc
    have hchain' : ChainFrom records0 (ncC ++ (ncA ++ ncN))
        (runSync adapter none runId changes opts records0 runs0 clock0).records := by
      rw [← List.append_assoc]
      exact hchain
    obtain ⟨mid1, hch1, hch2⟩ := (chainFrom_append ncC (ncA ++ ncN) _ _).mp hchain'
    have hpwC : List.Pairwise (fun a b : CallRecord =>
        a.item.sourceId ≠ b.item.sourceId) ncC := by
      by_cases hcont : opts.entities.contains EntityType.client = true
      · rw [if_pos hcont] at hmC
        have := hmC ▸ hCuniq
        rw [List.pairwise_map] at this
        exact this
      · rw [if_neg hcont] at hmC
        rw [List.map_eq_nil_iff] at hmC
        rw [hmC]
        exact List.Pairwise.nil
    have hA := chain_writes_ref adapter hco ncC records0 mid1 hch1 hkC hpwC
      cc hcc v hact href2
    obtain ⟨e, he, hev⟩ := hA
    have hok2 : ∀ x ∈ ncA ++ ncN, CallOk adapter true x.et x := by
      intro x hx
      rcases List.mem_append.mp hx with hxA | hxN
      · have := hkA x hxA
        rw [this.1]
        exact this
      · have := hkN x hxN
        rw [this.1]
        exact this
    have hne2 : ∀ x ∈ ncA ++ ncN, ¬(cc.item.sourceId = x.item.sourceId ∧ EntityType.client = x.et) := by
      intro x hx
      rintro ⟨-, h2⟩
      rcases List.mem_append.mp hx with hxA | hxN
      · rw [(hkA x hxA).1] at h2
        cases h2
      · rw [(hkN x hxN).1] at h2
        cases h2
    have hpres := (chain_preserves adapter true hco cc.item.sourceId .client
      (ncA ++ ncN) mid1
      (runSync adapter none runId changes opts records0 runs0 clock0).records
      hch2 hok2 hne2).2 nc (List.mem_append_right ncA hnc)
    rw [hpres.2, he]
    exact ⟨e, rfl, hev⟩




/-- Witness for C5: a concrete run with one client and one note
referencing it decomposes into client calls before note calls. -/
theorem dependency_ordering_witness :
    ∃ ncC ncA ncN : List CallRecord,
      (runSync
        (fun et r recs t => match et with
          | .sessionNote => .ok (pushSessionNote false none r recs t)
          | _ => .ok ⟨et, r.sourceId, .created, some "w", none, t⟩) none "r1"
        ⟨⟨[⟨"c1", []⟩], [], []⟩, ⟨[], [], []⟩,
          ⟨[⟨"n1", [("clientId", JsonVal.str "c1")]⟩], [], []⟩⟩
        ⟨false, [.client, .sessionNote], .automated, true⟩ [] [] 0).calls =
        ncC ++ ncA ++ ncN ∧
      (∀ c ∈ ncC, c.et = .client) ∧ (∀ c ∈ ncA, c.et = .appointment) ∧
      (∀ c ∈ ncN, c.et = .sessionNote) := by
  obtain ⟨ncC, ncA, ncN, h1, h2, h3, h4, -, -, -⟩ :=
    dependency_ordering
      (fun et r recs t => match et with
        | .sessionNote => .ok (pushSessionNote false none r recs t)
        | _ => .ok ⟨et, r.sourceId, .created, some "w", none, t⟩)
      (fun _ => false) (fun _ => none) "r1"
      ⟨⟨[⟨"c1", []⟩], [], []⟩, ⟨[], [], []⟩,
        ⟨[⟨"n1", [("clientId", JsonVal.str "c1")]⟩], [], []⟩⟩
      ⟨false, [.client, .sessionNote], .automated, true⟩ [] [] 0 rfl rfl
      (by
        intro et r recs t res h
        cases et with
        | sessionNote =>
          dsimp only at h
          cases h
          exact pushSessionNote_fields false none r recs t
        | client => dsimp only at h; cases h; exact ⟨rfl, rfl⟩
        | appointment => dsimp only at h; cases h; exact ⟨rfl, rfl⟩
        | meetingLink => dsimp only at h; cases h; exact ⟨rfl, rfl⟩)
      (fun _ _ _ => rfl)
      (by simp [clientItems])
  exact ⟨ncC, ncA, ncN, h1, h2, h3, h4⟩

/-- Counterexample to C5 as stated: a session note whose client
reference cannot be resolved (empty ledger, unknown clientId) but which
already exists in the destination is `skipped`, not `failed` — the
claim's "a note whose client reference cannot be resolved fails that
single item" does not hold for notes already present downstream. -/
theorem dependency_ordering_counterexample :
    resolveOwlClientId ⟨"n1", [("clientId", JsonVal.str "c9")]⟩ [] = none ∧
    ∃ res ∈ resultsOf (runSync
        (fun _ r recs t => .ok (pushSessionNote true none r recs t)) none "r1"
        ⟨⟨[], [], []⟩, ⟨[], [], []⟩, ⟨[⟨"n1", [("clientId", JsonVal.str "c9")]⟩], [], []⟩⟩
        ⟨false, [.client, .sessionNote], .automated, true⟩ [] [] 0).outcome,
      res.sourceId = "n1" ∧ res.entity = .sessionNote ∧
      res.action = .skipped ∧ res.action ≠ .failed := by
  refine ⟨rfl, ⟨.sessionNote, "n1", .skipped, none, none, 2⟩, ?_, rfl, rfl, rfl, by decide⟩
  rw [show resultsOf (runSync
      (fun _ r recs t => .ok (pushSessionNote true none r recs t)) none "r1"
      ⟨⟨[], [], []⟩, ⟨[], [], []⟩, ⟨[⟨"n1", [("clientId", JsonVal.str "c9")]⟩], [], []⟩⟩
      ⟨false, [.client, .sessionNote], .automated, true⟩ [] [] 0).outcome =
    [⟨.sessionNote, "n1", .skipped, none, none, 2⟩] from rfl]
  exact List.mem_singleton_self _



theorem orderedInsert_map_key (x : String × JsonVal) :
    ∀ (l : JFields),
      (List.orderedInsert (fun a b : String × JsonVal => a.1 ≤ b.1) x l).map keyOrNull =
      List.orderedInsert (fun a b : String × JsonVal => a.1 ≤ b.1) (keyOrNull x)
        (l.map keyOrNull) := by
  intro l
  induction l with
  | nil => rfl
  | cons y t ih =>
    have hkey : ∀ kv : String × JsonVal, (keyOrNull kv).1 = kv.1 := fun _ => rfl
    simp only [List.orderedInsert, List.map_cons, hkey]
    by_cases hle : x.1 ≤ y.1
    · rw [if_pos hle, if_pos hle]
      rfl
    · rw [if_neg hle, if_neg hle]
      simp only [List.map_cons]
      rw [ih]

theorem insertionSort_map_key :
    ∀ (l : JFields),
      (List.insertionSort (fun a b : String × JsonVal => a.1 ≤ b.1) l).map keyOrNull =
      List.insertionSort (fun a b : String × JsonVal => a.1 ≤ b.1) (l.map keyOrNull) := by
  intro l
  induction l with
  | nil => rfl
  | cons x t ih =>
    simp only [List.insertionSort, List.map_cons]
    rw [orderedInsert_map_key, ih]

theorem stableSortKeys_eq_sort_map (l : JFields) :
    stableSortKeys l =
      List.insertionSort (fun a b : String × JsonVal => a.1 ≤ b.1) (l.map keyOrNull) := by
  unfold stableSortKeys
  rw [← insertionSort_map_key]
  rfl

theorem eq_of_perm_pairwise_keylt :
    ∀ (l1 l2 : JFields), l1.Perm l2 →
      l1.Pairwise (fun a b => a.1 < b.1) → l2.Pairwise (fun a b => a.1 < b.1) →
      l1 = l2 := by
  intro l1
  induction l1 with
  | nil =>
    intro l2 hp _ _
    exact (hp.nil_eq).symm.symm
  | cons a t1 ih =>
    intro l2 hp h1 h2
    cases l2 with
    | nil => exact absurd hp.symm.nil_eq (by simp)
    | cons b t2 =>
      have hab : a = b := by
        have ha2 : a ∈ b :: t2 := hp.mem_iff.mp (List.mem_cons_self a t1)
        rcases List.mem_cons.mp ha2 with h | hat2
        · exact h
        · have hb1 : b ∈ a :: t1 := hp.symm.mem_iff.mp (List.mem_cons_self b t2)
          rcases List.mem_cons.mp hb1 with h' | hbt1
          · exfalso
            have := (List.pairwise_cons.mp h2).1 a hat2
            rw [h'] at this
            exact lt_irrefl _ this
          · exfalso
            have hlt1 := (List.pairwise_cons.mp h1).1 b hbt1
            have hlt2 := (List.pairwise_cons.mp h2).1 a hat2
            exact lt_irrefl _ (hlt1.trans hlt2)
      subst hab
      have hpt : t1.Perm t2 := hp.cons_inv
      rw [ih t2 hpt (List.pairwise_cons.mp h1).2 (List.pairwise_cons.mp h2).2]

theorem sorted_keys_pairwise_lt (l : JFields)
    (hs : List.Pairwise (fun a b : String × JsonVal => a.1 ≤ b.1) l)
    (hn : (l.map Prod.fst).Nodup) :
    l.Pairwise (fun a b => a.1 < b.1) := by
  have hn' : List.Pairwise Ne (l.map Prod.fst) := hn
  rw [List.pairwise_map] at hn'
  exact (hs.and hn').imp (fun h => lt_of_le_of_ne h.1 h.2)




theorem stableSortKeys_perm_eq (g1 g2 : JFields) (hp : g1.Perm g2)
    (hn : (g1.map Prod.fst).Nodup) :
    stableSortKeys g1 = stableSortKeys g2 := by
  haveI : IsTotal (String × JsonVal) (fun a b => a.1 ≤ b.1) :=
    ⟨fun a b => le_total a.1 b.1⟩
  haveI : IsTrans (String × JsonVal) (fun a b => a.1 ≤ b.1) :=
    ⟨fun a b c h1 h2 => le_trans h1 h2⟩
  have hkeys1 : ((List.insertionSort (fun a b : String × JsonVal => a.1 ≤ b.1)
      (g1.map keyOrNull)).map Prod.fst).Perm (g1.map Prod.fst) := by
    have hperm := (List.perm_insertionSort
      (fun a b : String × JsonVal => a.1 ≤ b.1) (g1.map keyOrNull)).map Prod.fst
    have heq2 : (g1.map keyOrNull).map Prod.fst = g1.map Prod.fst := by
      simp [List.map_map, Function.comp, keyOrNull]
    rw [heq2] at hperm
    exact hperm
  have hkeys2 : ((List.insertionSort (fun a b : String × JsonVal => a.1 ≤ b.1)
      (g2.map keyOrNull)).map Prod.fst).Perm (g2.map Prod.fst) := by
    have hperm := (List.perm_insertionSort
      (fun a b : String × JsonVal => a.1 ≤ b.1) (g2.map keyOrNull)).map Prod.fst
    have heq2 : (g2.map keyOrNull).map Prod.fst = g2.map Prod.fst := by
      simp [List.map_map, Function.comp, keyOrNull]
    rw [heq2] at hperm
    exact hperm
  have hn2 : (g2.map Prod.fst).Nodup := ((hp.map Prod.fst).nodup_iff).mp hn
  rw [stableSortKeys_eq_sort_map, stableSortKeys_eq_sort_map]
  apply eq_of_perm_pairwise_keylt
  · exact (List.perm_insertionSort _ _).trans
      ((hp.map keyOrNull).trans (List.perm_insertionSort _ _).symm)
  · exact sorted_keys_pairwise_lt _ (List.sorted_insertionSort _ _)
      (hkeys1.nodup_iff.mpr hn)
  · exact sorted_keys_pairwise_lt _ (List.sorted_insertionSort _ _)
      (hkeys2.nodup_iff.mpr hn2)

/-- C8 (amended): `hashEntity` is invariant under TOP-LEVEL property
insertion order — two records with the same top-level field names (no
duplicates) mapped to the same values, in any top-level order, hash
identically — with `id`/`source`/`sourceId` stripped and top-level
`undefined` values normalized to `null` before hashing.  The amendment
restricts the claim's "insertion order possibly differing at any level"
to the top level: nested objects are serialized in their stored key
order, so a nested-level reordering changes the hash (see the
counterexample). -/
theorem fingerprint_determinism :
    (∀ f1 f2 : JFields, f1.Perm f2 → (f1.map Prod.fst).Nodup →
      hashEntity f1 = hashEntity f2) ∧
    (∀ (f : JFields) (k : String) (v : JsonVal),
      k = "id" ∨ k = "source" ∨ k = "sourceId" →
      hashEntity ((k, v) :: f) = hashEntity f) ∧
    (∀ (f : JFields) (k : String),
      hashEntity ((k, .undef) :: f) = hashEntity ((k, .null) :: f)) := by
  refine ⟨?_, ?_, ?_⟩
  · intro f1 f2 hp hn
    unfold hashEntity canonicalJson
    suffices h : stableSortKeys (stripMeta f1) = stableSortKeys (stripMeta f2) by rw [h]
    apply stableSortKeys_perm_eq
    · exact hp.filter _
    · have hsub : ((stripMeta f1).map Prod.fst).Sublist (f1.map Prod.fst) :=
        (List.filter_sublist f1).map Prod.fst
      exact hn.sublist hsub
  · intro f k v hk
    unfold hashEntity canonicalJson
    suffices h : stripMeta ((k, v) :: f) = stripMeta f by rw [h]
    rcases hk with rfl | rfl | rfl <;> simp [stripMeta]
  · intro f k
    unfold hashEntity canonicalJson
    suffices h : stableSortKeys (stripMeta ((k, .undef) :: f)) =
        stableSortKeys (stripMeta ((k, .null) :: f)) by rw [h]
    by_cases hk : k = "id" ∨ k = "source" ∨ k = "sourceId"
    · have h1 : stripMeta ((k, JsonVal.undef) :: f) = stripMeta f := by
        rcases hk with rfl | rfl | rfl <;> simp [stripMeta]
      have h2 : stripMeta ((k, JsonVal.null) :: f) = stripMeta f := by
        rcases hk with rfl | rfl | rfl <;> simp [stripMeta]
      rw [h1, h2]
    · push_neg at hk
      have h1 : stripMeta ((k, JsonVal.undef) :: f) = (k, JsonVal.undef) :: stripMeta f := by
        simp [stripMeta, List.filter_cons, hk.1, hk.2.1, hk.2.2]
      have h2 : stripMeta ((k, JsonVal.null) :: f) = (k, JsonVal.null) :: stripMeta f := by
        simp [stripMeta, List.filter_cons, hk.1, hk.2.1, hk.2.2]
      rw [h1, h2, stableSortKeys_eq_sort_map, stableSortKeys_eq_sort_map]
      rfl

/-- Witness for C8 at two concrete top-level reorderings. -/
theorem fingerprint_determinism_witness :
    ([("b", JsonVal.str "x"), ("a", JsonVal.num 1)] : JFields).Perm
      [("a", JsonVal.num 1), ("b", JsonVal.str "x")] ∧
    hashEntity [("b", JsonVal.str "x"), ("a", JsonVal.num 1)] =
      hashEntity [("a", JsonVal.num 1), ("b", JsonVal.str "x")] :=
  ⟨List.Perm.swap _ _ _,
   fingerprint_determinism.1 _ _ (List.Perm.swap _ _ _) (by decide)⟩

/-- Counterexample to C8 as stated: two structurally-equal records whose
only difference is the insertion order INSIDE a nested object (the nested
field lists are permutations) produce different hashes, because
`stableSortKeys` sorts only the top level and `JSON.stringify` keeps
nested insertion order. -/
theorem fingerprint_determinism_counterexample :
    ([("x", JsonVal.num 1), ("y", JsonVal.num 2)] : JFields).Perm
      [("y", JsonVal.num 2), ("x", JsonVal.num 1)] ∧
    hashEntity [("a", JsonVal.obj [("x", JsonVal.num 1), ("y", JsonVal.num 2)])] ≠
      hashEntity [("a", JsonVal.obj [("y", JsonVal.num 2), ("x", JsonVal.num 1)])] :=
  ⟨List.Perm.swap _ _ _, by decide⟩



/-- C9 (code bug): the trigger endpoints cannot signal a conflict.  The
POST /api/sync/run handler branches only on credential presence and on
whether the fetch/sync pipeline throws, and POST /api/sync/trigger only
on JSON/schema validity, a thrown sync, and failed counts: neither ever
produces HTTP 409, and a request arriving while a run is in progress is
served like any other (status 200 on success).  The front end
(`page.tsx` lines 134-142) explicitly handles a 409 "Sync already in
progress" response that the server can never send, and spec sections 5-6
require rejecting a concurrent trigger with a distinct conflict status. -/
theorem no_conflict_status :
    (∀ owl ps fails : Bool, postSyncRunCode owl ps fails ≠ 409) ∧
    (∀ j sc th f : Bool, postSyncTriggerCode j sc th f ≠ 409) ∧
    postSyncRunCode true true false = 200 := by
  refine ⟨?_, ?_, rfl⟩
  · intro owl ps fails
    cases owl <;> cases ps <;> cases fails <;> decide
  · intro j sc th f
    cases j <;> cases sc <;> cases th <;> cases f <;> decide

end Inti
